import Mathlib

/-
Verification development for the Quantuccia quantitative-finance core:
the generic Longstaff-Schwartz regression engine
(ql/methods/montecarlo/genericlsregression.hpp) and the Differential
Evolution optimizer (ql/math/optimization/differentialevolution.hpp).

Real numbers are embedded as rationals; machine floating point rounding is
not modelled.  External collaborators that are not part of the sources
(the SVD least-squares solver, the sequence-statistics accumulator, the
seeded uniform RNG, the problem/constraint/termination abstractions and
std::random_shuffle) are either passed as explicit parameters or modelled
from the specification, as noted on each definition.
-/

namespace Quantuccia

/-- Modelled from the spec: per-path, per-exercise-date node data
(spec section 3); the defining header ql/methods/montecarlo/nodedata.hpp
is not among the sources.  Fields: basis-function values, accumulated
discounted cash flows, control-variate value, exercise payoff, validity. -/
structure NodeData where
  values : List ℚ
  cumulatedCashFlows : ℚ
  controlValue : ℚ
  exerciseValue : ℚ
  isValid : Bool
deriving Repr, DecidableEq, Inhabited

/-- Embeds GeneralStatistics::mean (generalstatistics.hpp lines 279-285):
requires a non-empty sample set, then returns the weighted mean
sum (x*w) / sum w computed by expectationValue over the whole range. -/
def gsMean (samples : List (ℚ × ℚ)) : Except String ℚ :=
  if samples.isEmpty then .error "empty sample set"
  else .ok ((samples.map fun s => s.1 * s.2).sum / (samples.map fun s => s.2).sum)

/-- Modelled from the spec: componentwise mean of the SequenceStatistics
accumulator (external collaborator, spec sections 2 and 6); each of the
dim components is the weight-1 GeneralStatistics mean of that coordinate,
and a zero-sample set must fail (spec section 4.1, InsufficientData). -/
def seqMean (dim : ℕ) (samples : List (List ℚ)) : Except String (List ℚ) :=
  if samples.isEmpty then .error "empty sample set"
  else .ok ((List.range dim).map fun k =>
    (samples.map fun s => s.getD k 0).sum / (samples.length : ℚ))

/-- Modelled from the spec: covariance matrix of the SequenceStatistics
accumulator over vector-valued samples (bias-corrected sample covariance);
a zero-sample set must fail (spec section 4.1, InsufficientData). -/
def seqCovariance (dim : ℕ) (samples : List (List ℚ)) :
    Except String (List (List ℚ)) :=
  if samples.isEmpty then .error "empty sample set"
  else
    let n : ℚ := samples.length
    let m : ℕ → ℚ := fun k => (samples.map fun s => s.getD k 0).sum / n
    .ok ((List.range dim).map fun k => (List.range dim).map fun l =>
      (n / (n - 1)) *
        ((samples.map fun s => (s.getD k 0 - m k) * (s.getD l 0 - m l)).sum / n))

/-- Embeds std::inner_product(first1, last1, first2, init): init plus the
sum, over the first range's length, of pairwise products; the second range
is read at the same indices (and as 0 beyond its end, a case the C++ code
never reaches). -/
def innerProduct (xs ys : List ℚ) (init : ℚ) : ℚ :=
  init + ((List.range xs.length).map fun k => xs.getD k 0 * ys.getD k 0).sum

/-- Embeds genericlsregression.hpp lines 86-97: the samples accumulated for
one exercise layer; only nodes with isValid true contribute, each as its
basis values augmented with cumulatedCashFlows - controlValue. -/
def regressionSamples (exerciseData : List NodeData) : List (List ℚ) :=
  (exerciseData.filter fun nd => nd.isValid).map fun nd =>
    nd.values ++ [nd.cumulatedCashFlows - nd.controlValue]

/-- Embeds genericlsregression.hpp lines 118-140: the exercise-decision
loop over one layer.  Node j of the exercise layer, when valid, adds to the
previous layer's node j either its exercise value (when the estimated
continuation value is at most the exercise value) or its own accumulated
cash flows; invalid nodes leave the previous layer's node untouched. -/
def updatePrevLayer (alphas : List ℚ) :
    List NodeData → List NodeData → List NodeData
  | nd :: eds, prev :: ps =>
    (if nd.isValid then
      let estimatedContinuationValue :=
        innerProduct nd.values alphas nd.controlValue
      let value :=
        if estimatedContinuationValue ≤ nd.exerciseValue then nd.exerciseValue
        else nd.cumulatedCashFlows
      { prev with cumulatedCashFlows := prev.cumulatedCashFlows + value }
    else prev) :: updatePrevLayer alphas eds ps
  | _, ps => ps

/-- Embeds the body of the backward-induction loop of
genericlsregression.hpp lines 76-141 for one layer index i: accumulate
statistics over the layer's valid nodes, form the symmetric matrix C and
the target vector, solve for the regression coefficients (the SVD-based
least-squares solver is an external collaborator and is passed in as
solve), store them resized to N, and update the previous layer. -/
def processLayer (solve : List (List ℚ) → List ℚ → List ℚ)
    (exerciseData prevLayer : List NodeData) :
    Except String (List ℚ × List NodeData) :=
  let N := (exerciseData.headD default).values.length
  let samples := regressionSamples exerciseData
  match seqMean (N + 1) samples, seqCovariance (N + 1) samples with
  | .ok means, .ok covariance =>
    let C := (List.range N).map fun k => (List.range N).map fun l =>
      (covariance.getD k []).getD l 0 + means.getD k 0 * means.getD l 0
    let target := (List.range N).map fun k =>
      (covariance.getD k []).getD N 0 + means.getD k 0 * means.getD N 0
    let alphas := solve C target
    let basis := (List.range N).map fun k => alphas.getD k 0
    .ok (basis, updatePrevLayer alphas exerciseData prevLayer)
  | .error e, _ => .error e
  | _, .error e => .error e

/-- Embeds the full backward induction of genericlsregression.hpp
lines 76-141: layers are processed from the last one down to index 1, each
exercise layer being processed after all later layers have added into it;
returns the basis-coefficient vectors (index 0 first) and the final grid. -/
def lsRun (solve : List (List ℚ) → List ℚ → List ℚ) :
    List (List NodeData) →
    Except String (List (List ℚ) × List (List NodeData))
  | [] => .ok ([], [])
  | [l0] => .ok ([], [l0])
  | l0 :: l1 :: rest =>
    match lsRun solve (l1 :: rest) with
    | .error e => .error e
    | .ok (cs, tail) =>
      match tail with
      | [] => .error "internal error"
      | l1x :: restx =>
        match processLayer solve l1x l0 with
        | .error e => .error e
        | .ok (c1, l0x) => .ok (c1 :: cs, l0x :: l1x :: restx)

/-- Embeds genericLongstaffSchwartzRegression (genericlsregression.hpp
lines 69-151): run the backward induction, then return the mean of layer
0's accumulated cash flows over all paths (Statistics::add with weight 1,
Statistics::mean as in generalstatistics.hpp), together with the
coefficient vectors and the mutated grid. -/
def genericLongstaffSchwartzRegression
    (solve : List (List ℚ) → List ℚ → List ℚ)
    (simulationData : List (List NodeData)) :
    Except String (List (List ℚ) × List (List NodeData) × ℚ) :=
  match lsRun solve simulationData with
  | .error e => .error e
  | .ok (basisCoefficients, finalData) =>
    match finalData with
    | [] => .error "empty sample set"
    | estimatedData :: _ =>
      match gsMean (estimatedData.map fun nd =>
          (nd.cumulatedCashFlows, (1 : ℚ))) with
      | .error e => .error e
      | .ok est => .ok (basisCoefficients, finalData, est)

/-- Frame relation between an original node and a processed node: every
field except cumulatedCashFlows is unchanged. -/
def FrameEq (nd ndx : NodeData) : Prop :=
  ndx.values = nd.values ∧ ndx.controlValue = nd.controlValue ∧
  ndx.exerciseValue = nd.exerciseValue ∧ ndx.isValid = nd.isValid

/-- Concrete solver used for witnesses: returns the target vector. -/
def solveW : List (List ℚ) → List ℚ → List ℚ := fun _ t => t

/-- Concrete two-layer grid with three paths used for witnesses. -/
def gridW : List (List NodeData) :=
  [[⟨[1], 1, 0, 0, true⟩, ⟨[1], 2, 0, 0, true⟩, ⟨[1], 3, 0, 0, true⟩],
   [⟨[1], 5, 0, 10, true⟩, ⟨[1], 5, 0, 10, true⟩, ⟨[1], 5, 0, 10, true⟩]]

/-- The grid gridW after the backward induction. -/
def gridWOut : List (List NodeData) :=
  [[⟨[1], 11, 0, 0, true⟩, ⟨[1], 12, 0, 0, true⟩, ⟨[1], 13, 0, 0, true⟩],
   [⟨[1], 5, 0, 10, true⟩, ⟨[1], 5, 0, 10, true⟩, ⟨[1], 5, 0, 10, true⟩]]


/-- Concrete one-node exercise layer and previous layer for the C1 witness. -/
def edW : List NodeData := [⟨[1], 5, 0, 10, true⟩]

def prevW : List NodeData := [⟨[], 1, 0, 0, true⟩]

/-- Concrete grid whose exercise layer has no valid node. -/
def gridBad : List (List NodeData) :=
  [[⟨[], 0, 0, 0, true⟩], [⟨[1], 0, 0, 0, false⟩]]

namespace DE

/-- Embeds DifferentialEvolution::Strategy
(differentialevolution.hpp lines 61-69). -/
inductive Strategy
  | Rand1Standard
  | BestMemberWithJitter
  | CurrentToBest2Diffs
  | Rand1DiffWithPerVectorDither
  | Rand1DiffWithDither
  | EitherOrWithOptimalRecombination
  | Rand1SelfadaptiveWithRotation
deriving DecidableEq, Repr

/-- Embeds DifferentialEvolution::CrossoverType
(differentialevolution.hpp lines 70-74). -/
inductive CrossoverType
  | Normal
  | Binomial
  | Exponential
deriving DecidableEq, Repr

/-- Embeds DifferentialEvolution::Candidate
(differentialevolution.hpp lines 76-80). -/
structure Candidate where
  values : List ℚ
  cost : ℚ
deriving DecidableEq, Repr, Inhabited

/-- Embeds DifferentialEvolution::Configuration
(differentialevolution.hpp lines 82-147); the range checks made by the
builder methods are carried as hypotheses where needed. -/
structure Configuration where
  strategy : Strategy
  crossoverType : CrossoverType
  populationMembers : ℕ
  stepsizeWeight : ℚ
  crossoverProbability : ℚ
  seed : ℕ
  applyBounds : Bool
  crossoverIsAdaptive : Bool

/-- Embeds QL_MAX_REAL, the worst-possible sentinel cost: the largest
finite IEEE double, 2^1024 - 2^971. -/
def QL_MAX_REAL : ℚ := 2 ^ 1024 - 2 ^ 971

/-- Elementwise Array addition. -/
def vadd (a b : List ℚ) : List ℚ := List.zipWith (· + ·) a b

/-- Elementwise Array subtraction. -/
def vsub (a b : List ℚ) : List ℚ := List.zipWith (· - ·) a b

/-- Elementwise Array product. -/
def vmul (a b : List ℚ) : List ℚ := List.zipWith (· * ·) a b

/-- Scalar times Array. -/
def smul (c : ℚ) (a : List ℚ) : List ℚ := a.map fun x => c * x

/-- Array plus scalar. -/
def sadd (a : List ℚ) (c : ℚ) : List ℚ := a.map fun x => x + c

def zipWith3 {α β γ δ : Type} (f : α → β → γ → δ) :
    List α → List β → List γ → List δ
  | a :: as2, b :: bs, c :: cs => f a b c :: zipWith3 f as2 bs cs
  | _, _, _ => []

def zipWith4 {α β γ δ ε : Type} (f : α → β → γ → δ → ε) :
    List α → List β → List γ → List δ → List ε
  | a :: as2, b :: bs, c :: cs, d :: ds => f a b c d :: zipWith4 f as2 bs cs ds
  | _, _, _, _ => []

/-- Modelled from the spec: the seeded uniform RNG (external collaborator,
spec sections 2 and 6, "deterministic seeded pseudo-random stream").  The
stream rs stands for the Mersenne-twister sequence that the C++
constructor derives from configuration.seed; the run consumes it in call
order through an explicit counter. -/
def nextReal (rs : ℕ → ℚ) (c : ℕ) : ℚ × ℕ := (rs c, c + 1)

/-- Modelled from the spec: std::random_shuffle draws from a global source
that is not part of the optimizer configuration (spec section 9, open
question).  The source is a stream of index lists, one per shuffle call; a
call rearranges xs so that position i holds the element at index p i (i
itself when p is too short). -/
def applyPerm {α : Type} [Inhabited α] (p : List ℕ) (xs : List α) : List α :=
  (List.range xs.length).map fun i => xs.getD (p.getD i i) default

def shuffleCall {α : Type} [Inhabited α] (ss : ℕ → List ℕ) (c : ℕ)
    (xs : List α) : List α × ℕ :=
  (applyPerm (ss c) xs, c + 1)

/-- Embeds DifferentialEvolution::getMutationProbabilities
(differentialevolution.hpp lines 479-505): Normal keeps the stored
crossover probabilities; Binomial maps p to p*(1 - 1/dim) + 1/dim;
Exponential maps p to (1 - p^dim) / (dim*(1 - p)); dim is the number of
values of the population front member. -/
def getMutationProbabilities (cfg : Configuration)
    (currGenCrossover : List ℚ) (population : List Candidate) : List ℚ :=
  let dim : ℕ := (population.headD default).values.length
  match cfg.crossoverType with
  | .Normal => currGenCrossover
  | .Binomial =>
    sadd (smul (1 - 1 / (dim : ℚ)) currGenCrossover) (1 / (dim : ℚ))
  | .Exponential =>
    currGenCrossover.map fun p => (1 - p ^ dim) / ((dim : ℚ) * (1 - p))

/-- One member row of the crossover masks (differentialevolution.hpp
lines 468-476, inner loop): one uniform draw per dimension; a draw below
the member mutation probability keeps the mutant (mask 1, inverse 0),
otherwise the old value (mask 0, inverse 1). -/
def maskRow (rs : ℕ → ℚ) (p : ℚ) : ℕ → ℕ → List ℚ × List ℚ × ℕ
  | 0, c => ([], [], c)
  | d + 1, c =>
    let (r, c1) := nextReal rs c
    let (ms, inv, c2) := maskRow rs p d c1
    if r < p then (1 :: ms, 0 :: inv, c2) else (0 :: ms, 1 :: inv, c2)

/-- Embeds DifferentialEvolution::getCrossoverMask
(differentialevolution.hpp lines 464-477). -/
def getCrossoverMask (rs : ℕ → ℚ) (mutationProbabilities : List ℚ)
    (dim : ℕ) (c : ℕ) : List (List ℚ) × List (List ℚ) × ℕ :=
  match mutationProbabilities with
  | [] => ([], [], c)
  | p :: ps =>
    let (m, inv, c1) := maskRow rs p dim c
    let (ms, invs, c2) := getCrossoverMask rs ps dim c1
    (m :: ms, inv :: invs, c2)

/-- Embeds DifferentialEvolution::adaptCrossover
(differentialevolution.hpp lines 526-532): each entry is re-randomized
with probability 0.1. -/
def adaptCrossoverLoop (rs : ℕ → ℚ) : List ℚ → ℕ → List ℚ × ℕ
  | [], c => ([], c)
  | p :: ps, c =>
    let (r, c1) := nextReal rs c
    let (p2, c2) := if r < 1 / 10 then nextReal rs c1 else (p, c1)
    let (rest, c3) := adaptCrossoverLoop rs ps c2
    (p2 :: rest, c3)

/-- Embeds DifferentialEvolution::adaptSizeWeights
(differentialevolution.hpp lines 512-524): each entry is reset to
0.1 + u*0.9 with probability 0.1. -/
def adaptSizeWeightsLoop (rs : ℕ → ℚ) : List ℚ → ℕ → List ℚ × ℕ
  | [], c => ([], c)
  | w :: ws, c =>
    let (r, c1) := nextReal rs c
    let (w2, c2) :=
      if r < 1 / 10 then
        let (r2, cA) := nextReal rs c1
        (1 / 10 + r2 * (9 / 10), cA)
      else (w, c1)
    let (rest, c3) := adaptSizeWeightsLoop rs ws c2
    (w2 :: rest, c3)

/-- Embeds the bound-handling inner loop of DifferentialEvolution::crossover
(differentialevolution.hpp lines 441-454): a coordinate above the upper
bound is replaced by upper + u*(mirror - upper); then, if the (possibly
replaced) coordinate is below the lower bound, by lower + u*(mirror -
lower); each replacement consumes one fresh uniform draw. -/
def clipValues (rs : ℕ → ℚ) :
    List ℚ → List ℚ → List ℚ → List ℚ → ℕ → List ℚ × ℕ
  | v :: vs, l :: ls, u :: us, m :: ms, c =>
    let (v1, c1) :=
      if v > u then
        let (r, cA) := nextReal rs c
        (u + r * (m - u), cA)
      else (v, c)
    let (v2, c2) :=
      if v1 < l then
        let (r, cB) := nextReal rs c1
        (l + r * (m - l), cB)
      else (v1, c1)
    let (rest, c3) := clipValues rs vs ls us ms c2
    (v2 :: rest, c3)
  | vs, _, _, _, c => (vs, c)

/-- Embeds the member loop of DifferentialEvolution::crossover
(differentialevolution.hpp lines 437-461): recombine old and mutant values
through the masks, apply the bound handling when enabled, then evaluate
the cost immediately, degrading a failed evaluation to QL_MAX_REAL. -/
def crossoverLoop (rs : ℕ → ℚ) (applyBounds : Bool) (lower upper : List ℚ)
    (costFunction : List ℚ → Except String ℚ) :
    List Candidate → List Candidate → List Candidate →
    List (List ℚ) → List (List ℚ) → ℕ → List Candidate × ℕ
  | o :: os, mu :: mus, mi :: mis, mk :: mks, iv :: ivs, c =>
    let vs := vadd (vmul o.values iv) (vmul mu.values mk)
    let (vs2, c1) :=
      if applyBounds then clipValues rs vs lower upper mi.values c
      else (vs, c)
    let cost := match costFunction vs2 with
      | .ok y => y
      | .error _ => QL_MAX_REAL
    let (rest, c2) :=
      crossoverLoop rs applyBounds lower upper costFunction os mus mis mks
        ivs c1
    (⟨vs2, cost⟩ :: rest, c2)
  | _, _, _, _, _, c => ([], c)

structure CrossoverResult where
  population : List Candidate
  currGenCrossover : List ℚ
  rngCount : ℕ

/-- Embeds DifferentialEvolution::crossover (differentialevolution.hpp
lines 418-462): optional adaptive update of the stored crossover
probabilities, mutation-probability derivation, mask generation, then the
member loop. -/
def crossover (rs : ℕ → ℚ) (cfg : Configuration) (lower upper : List ℚ)
    (costFunction : List ℚ → Except String ℚ)
    (oldPopulation population mutantPopulation mirrorPopulation :
      List Candidate)
    (currGenCrossover : List ℚ) (c : ℕ) : CrossoverResult :=
  let (cgc, c0) :=
    if cfg.crossoverIsAdaptive then adaptCrossoverLoop rs currGenCrossover c
    else (currGenCrossover, c)
  let mutationProbabilities := getMutationProbabilities cfg cgc population
  let dim := (population.headD default).values.length
  let (mask, invMask, c1) := getCrossoverMask rs mutationProbabilities dim c0
  let (pop2, c2) := crossoverLoop rs cfg.applyBounds lower upper costFunction
    oldPopulation mutantPopulation mirrorPopulation mask invMask c1
  ⟨pop2, cgc, c2⟩

def drawList (rs : ℕ → ℚ) : ℕ → ℕ → List ℚ × ℕ
  | 0, c => ([], c)
  | n + 1, c =>
    let (r, c1) := nextReal rs c
    let (rest, c2) := drawList rs n c1
    (r :: rest, c2)

/-- Member loop of BestMemberWithJitter (differentialevolution.hpp lines
298-305): the jitter vector is redrawn for each member. -/
def jitterLoop (rs : ℕ → ℚ) (best : Candidate) (F : ℚ) (dim : ℕ) :
    List Candidate → List Candidate → ℕ → List Candidate × ℕ
  | s :: ss2, p :: ps, c =>
    let (jitter, c1) := drawList rs dim c
    let v := vadd best.values
      (vmul (vsub s.values p.values) (sadd (smul (1 / 10000) jitter) F))
    let (rest, c2) := jitterLoop rs best F dim ss2 ps c1
    ({ p with values := v } :: rest, c2)
  | _, _, c => ([], c)

/-- Member loop of Rand1SelfadaptiveWithRotation (differentialevolution.hpp
lines 397-405): with probability 0.1 the member becomes a random
rearrangement of the best member (rotateArray, lines 507-510, served by
the global shuffle source), otherwise best + w_i*(s1_i - s2_i). -/
def rotationLoop (rs : ℕ → ℚ) (ss : ℕ → List ℕ) (best : Candidate) :
    List ℚ → List Candidate → List Candidate → List Candidate →
    ℕ → ℕ → List Candidate × ℕ × ℕ
  | w :: ws, p :: ps, a :: sa, b :: sb, c, sc =>
    let (r, c1) := nextReal rs c
    if r < 1 / 10 then
      let (rot, sc1) := shuffleCall ss sc best.values
      let (rest, c2, sc2) := rotationLoop rs ss best ws ps sa sb c1 sc1
      ({ p with values := rot } :: rest, c2, sc2)
    else
      let v := vadd best.values (smul w (vsub a.values b.values))
      let (rest, c2, sc2) := rotationLoop rs ss best ws ps sa sb c1 sc
      ({ p with values := v } :: rest, c2, sc2)
  | _, _, _, _, c, sc => ([], c, sc)

structure GenResult where
  population : List Candidate
  currGenSizeWeights : List ℚ
  currGenCrossover : List ℚ
  rngCount : ℕ
  shufCount : ℕ

/-- Embeds DifferentialEvolution::calculateNextGeneration
(differentialevolution.hpp lines 267-416): the strategy switch produces a
mutant population and a mirror population (std::random_shuffle calls are
served by the global shuffle stream ss), then crossover is applied with
the mutant population aliasing the population argument, as in the
source. -/
def calculateNextGeneration (rs : ℕ → ℚ) (ss : ℕ → List ℕ)
    (cfg : Configuration) (lower upper : List ℚ)
    (costFunction : List ℚ → Except String ℚ) (bestMemberEver : Candidate)
    (population : List Candidate)
    (currGenSizeWeights currGenCrossover : List ℚ)
    (c sc : ℕ) : GenResult :=
  let oldPopulation := population
  match cfg.strategy with
  | .Rand1Standard =>
    let (p1, sc1) := shuffleCall ss sc population
    let (p2, sc2) := shuffleCall ss sc1 p1
    let (p3, sc3) := shuffleCall ss sc2 p2
    let mutant := zipWith3 (fun x a b =>
      { x with values := (vadd x.values
          (smul cfg.stepsizeWeight (vsub a.values b.values))) }) p3 p1 p2
    let cr := crossover rs cfg lower upper costFunction oldPopulation mutant
      mutant p1 currGenCrossover c
    ⟨cr.population, currGenSizeWeights, cr.currGenCrossover, cr.rngCount, sc3⟩
  | .BestMemberWithJitter =>
    let (p1, sc1) := shuffleCall ss sc population
    let (p2, sc2) := shuffleCall ss sc1 p1
    let dim := (p2.headD default).values.length
    let (mutant, c1) :=
      jitterLoop rs bestMemberEver cfg.stepsizeWeight dim p1 p2 c
    let mirror := List.replicate p2.length bestMemberEver
    let cr := crossover rs cfg lower upper costFunction oldPopulation mutant
      mutant mirror currGenCrossover c1
    ⟨cr.population, currGenSizeWeights, cr.currGenCrossover, cr.rngCount, sc2⟩
  | .CurrentToBest2Diffs =>
    let (p1, sc1) := shuffleCall ss sc population
    let (p2, sc2) := shuffleCall ss sc1 p1
    let mutant := zipWith3 (fun x o a =>
      { x with values := (vadd
          (vadd o.values
            (smul cfg.stepsizeWeight (vsub bestMemberEver.values o.values)))
          (smul cfg.stepsizeWeight (vsub x.values a.values))) })
      p2 oldPopulation p1
    let cr := crossover rs cfg lower upper costFunction oldPopulation mutant
      mutant p1 currGenCrossover c
    ⟨cr.population, currGenSizeWeights, cr.currGenCrossover, cr.rngCount, sc2⟩
  | .Rand1DiffWithPerVectorDither =>
    let (p1, sc1) := shuffleCall ss sc population
    let (p2, sc2) := shuffleCall ss sc1 p1
    let (p3, sc3) := shuffleCall ss sc2 p2
    let dim := (p3.headD default).values.length
    let (rsDraws, c1) := drawList rs dim c
    let FWeight := rsDraws.map fun r => (1 - cfg.stepsizeWeight) * r +
      cfg.stepsizeWeight
    let mutant := zipWith3 (fun x a b =>
      { x with values := (vadd x.values (vmul FWeight
          (vsub a.values b.values))) }) p3 p1 p2
    let cr := crossover rs cfg lower upper costFunction oldPopulation mutant
      mutant p1 currGenCrossover c1
    ⟨cr.population, currGenSizeWeights, cr.currGenCrossover, cr.rngCount, sc3⟩
  | .Rand1DiffWithDither =>
    let (p1, sc1) := shuffleCall ss sc population
    let (p2, sc2) := shuffleCall ss sc1 p1
    let (p3, sc3) := shuffleCall ss sc2 p2
    let (r, c1) := nextReal rs c
    let FWeight := (1 - cfg.stepsizeWeight) * r + cfg.stepsizeWeight
    let mutant := zipWith3 (fun x a b =>
      { x with values := (vadd x.values (smul FWeight
          (vsub a.values b.values))) }) p3 p1 p2
    let cr := crossover rs cfg lower upper costFunction oldPopulation mutant
      mutant p1 currGenCrossover c1
    ⟨cr.population, currGenSizeWeights, cr.currGenCrossover, cr.rngCount, sc3⟩
  | .EitherOrWithOptimalRecombination =>
    let (p1, sc1) := shuffleCall ss sc population
    let (p2, sc2) := shuffleCall ss sc1 p1
    let (p3, sc3) := shuffleCall ss sc2 p2
    let (r, c1) := nextReal rs c
    let mutant :=
      if r < 1 / 2 then
        zipWith4 (fun x o a b =>
          { x with values := (vadd o.values
              (smul cfg.stepsizeWeight (vsub a.values b.values))) })
          p3 oldPopulation p1 p2
      else
        let K := 1 / 2 * (cfg.stepsizeWeight + 1)
        zipWith4 (fun x o a b =>
          { x with values := (vadd o.values
              (smul K (vsub (vsub a.values b.values)
                (smul 2 x.values)))) })
          p3 oldPopulation p1 p2
    let cr := crossover rs cfg lower upper costFunction oldPopulation mutant
      mutant p1 currGenCrossover c1
    ⟨cr.population, currGenSizeWeights, cr.currGenCrossover, cr.rngCount, sc3⟩
  | .Rand1SelfadaptiveWithRotation =>
    let (p1, sc1) := shuffleCall ss sc population
    let (p2, sc2) := shuffleCall ss sc1 p1
    let (p3, sc3) := shuffleCall ss sc2 p2
    let (w2, c1) := adaptSizeWeightsLoop rs currGenSizeWeights c
    let (mutant, c2, sc4) :=
      rotationLoop rs ss bestMemberEver w2 p3 p1 p2 c1 sc3
    let cr := crossover rs cfg lower upper costFunction oldPopulation mutant
      mutant p1 currGenCrossover c2
    ⟨cr.population, w2, cr.currGenCrossover, cr.rngCount, sc4⟩

/-- Embeds the inner loop of DifferentialEvolution::fillInitialPopulation
(differentialevolution.hpp lines 542-548): coordinate i of a random member
is lower_i + (upper_i - lower_i) * u. -/
def randomPoint (rs : ℕ → ℚ) : List ℚ → List ℚ → ℕ → List ℚ × ℕ
  | l :: ls, u :: us, c =>
    let (r, c1) := nextReal rs c
    let (rest, c2) := randomPoint rs ls us c1
    ((l + (u - l) * r) :: rest, c2)
  | _, _, c => ([], c)

/-- Remaining members of the initial population: the cost evaluation is
NOT guarded, so a cost-function failure propagates
(differentialevolution.hpp line 547). -/
def fillRest (rs : ℕ → ℚ) (costFunction : List ℚ → Except String ℚ)
    (lower upper : List ℚ) :
    ℕ → ℕ → Except String (List Candidate × ℕ)
  | 0, c => .ok ([], c)
  | k + 1, c =>
    let (vs, c1) := randomPoint rs lower upper c
    match costFunction vs with
    | .error e => .error e
    | .ok y =>
      match fillRest rs costFunction lower upper k c1 with
      | .error e => .error e
      | .ok (rest, c2) => .ok (⟨vs, y⟩ :: rest, c2)

/-- Embeds DifferentialEvolution::fillInitialPopulation
(differentialevolution.hpp lines 534-549): slot 0 takes the caller's
current value, slots 1..n-1 are sampled uniformly in the box; every cost
evaluation here is unguarded, so a failure propagates. -/
def fillInitialPopulation (rs : ℕ → ℚ)
    (costFunction : List ℚ → Except String ℚ)
    (currentValue lower upper : List ℚ) (n : ℕ) (c : ℕ) :
    Except String (List Candidate × ℕ) :=
  match costFunction currentValue with
  | .error e => .error e
  | .ok c0 =>
    match fillRest rs costFunction lower upper (n - 1) c with
    | .error e => .error e
    | .ok (rest, c1) => .ok (⟨currentValue, c0⟩ :: rest, c1)

/-- Embeds std::partial_sort(begin, begin+1, end, sort_by_cost): the
cheapest member is brought to the front (the standard leaves the order of
the remaining members unspecified; this model keeps the first minimum in
front and the others in a definite order). -/
def frontMin : List Candidate → List Candidate
  | [] => []
  | c :: cs =>
    match frontMin cs with
    | [] => [c]
    | m :: rest => if m.cost < c.cost then m :: c :: rest else c :: m :: rest

/-- Modelled from the spec: the termination-criteria collaborator (spec
sections 4.2 and 6): a max-iteration condition and a
stationary-function-value condition with a sustain counter. -/
structure EndCriteria where
  maxIterations : ℕ
  functionEpsilon : ℚ
  maxStationaryStateIterations : ℕ

inductive ECType
  | NoCriteria
  | MaxIterations
  | StationaryFunctionValue
deriving DecidableEq, Repr

def checkMaxIterations (ec : EndCriteria) (iteration : ℕ) : Bool :=
  decide (ec.maxIterations ≤ iteration)

def checkStationaryFunctionValue (ec : EndCriteria) (fxOld fxNew : ℚ)
    (statIt : ℕ) : Bool × ℕ :=
  if |fxNew - fxOld| ≥ ec.functionEpsilon then (false, 0)
  else if statIt + 1 ≤ ec.maxStationaryStateIterations then (false, statIt + 1)
  else (true, statIt + 1)

/-- Modelled from the spec: the external problem abstraction (spec
sections 2 and 6): a fallible cost function, box bounds consulted once at
the start of a run, and a current value / function value pair written back
on termination. -/
structure Problem where
  costFunction : List ℚ → Except String ℚ
  lowerBound : List ℚ
  upperBound : List ℚ
  currentValue : List ℚ
  functionValue : ℚ

structure LoopState where
  population : List Candidate
  bestMemberEver : Candidate
  fxOld : ℚ
  statIt : ℕ
  currGenSizeWeights : List ℚ
  currGenCrossover : List ℚ
  rngCount : ℕ
  shufCount : ℕ
  iteration : ℕ

/-- Embeds the main loop of DifferentialEvolution::minimize
(differentialevolution.hpp lines 250-261): generate the next population,
bring its cheapest member to the front, update the best-ever member on a
strict improvement, then consult the termination criteria.  The fuel
argument bounds the recursion; minimize supplies maxIterations + 1, enough
for the loop to exit through a criterion. -/
def deLoop (rs : ℕ → ℚ) (ss : ℕ → List ℕ) (cfg : Configuration)
    (ec : EndCriteria) (lower upper : List ℚ)
    (costFunction : List ℚ → Except String ℚ) :
    ℕ → LoopState → List (List Candidate) →
    ECType × LoopState × List (List Candidate)
  | 0, st, trace => (ECType.NoCriteria, st, trace)
  | fuel + 1, st, trace =>
    if checkMaxIterations ec st.iteration then
      (ECType.MaxIterations, { st with iteration := st.iteration + 1 }, trace)
    else
      let g := calculateNextGeneration rs ss cfg lower upper costFunction
        st.bestMemberEver st.population st.currGenSizeWeights
        st.currGenCrossover st.rngCount st.shufCount
      let sorted := frontMin g.population
      let front := sorted.headD default
      let best2 :=
        if front.cost < st.bestMemberEver.cost then front
        else st.bestMemberEver
      let fxNew := front.cost
      let (stop, statIt2) :=
        checkStationaryFunctionValue ec st.fxOld fxNew st.statIt
      let st2 : LoopState :=
        { population := sorted, bestMemberEver := best2, fxOld := fxNew,
          statIt := statIt2, currGenSizeWeights := g.currGenSizeWeights,
          currGenCrossover := g.currGenCrossover, rngCount := g.rngCount,
          shufCount := g.shufCount, iteration := st.iteration + 1 }
      let trace2 := trace ++ [g.population]
      if stop then (ECType.StationaryFunctionValue, st2, trace2)
      else deLoop rs ss cfg ec lower upper costFunction fuel st2 trace2

/-- Result of a minimize run: the fired criterion, the values written back
into the problem (setCurrentValue / setFunctionValue), the best-ever
member, and the trace of post-crossover populations, one per
generation. -/
structure MinimizeResult where
  ecType : ECType
  currentValue : List ℚ
  functionValue : ℚ
  bestMemberEver : Candidate
  trace : List (List Candidate)
deriving DecidableEq, Repr

/-- Embeds DifferentialEvolution::minimize (differentialevolution.hpp
lines 229-265): read the bounds once, build the per-member parameter
arrays, fill and sort the initial population (whose cost evaluations may
propagate a failure), run the generation loop, and write the best-ever
member back into the problem.  rs is the uniform stream determined by
configuration.seed; ss is the global std::random_shuffle source, which the
configuration does not determine. -/
def minimize (cfg : Configuration) (ec : EndCriteria) (p : Problem)
    (rs : ℕ → ℚ) (ss : ℕ → List ℕ) : Except String MinimizeResult :=
  let lower := p.lowerBound
  let upper := p.upperBound
  match fillInitialPopulation rs p.costFunction p.currentValue lower upper
      cfg.populationMembers 0 with
  | .error e => .error e
  | .ok (pop0, c1) =>
    let sorted0 := frontMin pop0
    let best0 := sorted0.headD default
    let st0 : LoopState :=
      { population := sorted0, bestMemberEver := best0, fxOld := best0.cost,
        statIt := 0,
        currGenSizeWeights :=
          List.replicate cfg.populationMembers cfg.stepsizeWeight,
        currGenCrossover :=
          List.replicate cfg.populationMembers cfg.crossoverProbability,
        rngCount := c1, shufCount := 0, iteration := 0 }
    let (ecType, stF, trace) :=
      deLoop rs ss cfg ec lower upper p.costFunction (ec.maxIterations + 1)
        st0 []
    .ok ⟨ecType, stF.bestMemberEver.values, stF.bestMemberEver.cost,
      stF.bestMemberEver, trace⟩

/-- Uniform stream used in concrete runs: every draw is 1/2. -/
def rsHalf : ℕ → ℚ := fun _ => 1 / 2

/-- Shuffle stream whose entries are empty index lists (the identity
rearrangement on any list, in particular on singletons). -/
def ssNil : ℕ → List ℕ := fun _ => []

/-- Shuffle stream that always presents the identity on two-element
lists. -/
def ssId2 : ℕ → List ℕ := fun _ => [0, 1]

/-- Shuffle stream identical to ssId2 except that its second call swaps
the two elements. -/
def ssSwap2 : ℕ → List ℕ := fun c => if c = 1 then [1, 0] else [0, 1]

def costId : List ℚ → Except String ℚ := fun v => .ok (v.getD 0 0)

def costQuad : List ℚ → Except String ℚ := fun v => .ok ((v.getD 0 0 - 5 / 2) ^ 2)

def costFail : List ℚ → Except String ℚ := fun _ => .error "cost failure"

def cfgC3 : Configuration :=
  ⟨Strategy.Rand1Standard, CrossoverType.Normal, 1, 1 / 5, 9 / 10, 0,
   true, false⟩

def cfgC9 : Configuration :=
  ⟨Strategy.Rand1Standard, CrossoverType.Normal, 2, 1 / 2, 1, 0,
   false, false⟩

def ecOne : EndCriteria := ⟨1, 0, 100⟩

def probC3 : Problem := ⟨costId, [0], [1], [5], 0⟩

def probC2 : Problem := ⟨costFail, [0], [1], [5], 0⟩

def probC9 : Problem := ⟨costQuad, [0], [4], [3], 0⟩

/-- Small loop state used to instantiate general loop lemmas. -/
def stW : LoopState :=
  ⟨[⟨[3], 3⟩], ⟨[3], 3⟩, 3, 0, [1 / 5], [9 / 10], 2, 0, 1⟩

end DE

lemma frameEq_refl (nd : NodeData) : FrameEq nd nd :=
  ⟨rfl, rfl, rfl, rfl⟩

lemma getD_range_map (f : ℕ → ℚ) (N k : ℕ) (h : k < N) :
    (((List.range N).map f).getD k 0) = f k := by
  rw [List.getD_eq_getElem?_getD, List.getElem?_map, List.getElem?_range h]
  rfl

lemma innerProduct_trunc (xs ys : List ℚ) (init : ℚ) (N : ℕ)
    (h : xs.length = N) :
    innerProduct xs ((List.range N).map fun k => ys.getD k 0) init =
      innerProduct xs ys init := by
  unfold innerProduct
  congr 1
  refine congrArg List.sum ?_
  apply List.map_congr_left
  intro k hk
  rw [List.mem_range] at hk
  rw [getD_range_map _ N k (h ▸ hk)]

lemma updatePrevLayer_length (alphas : List ℚ) :
    ∀ eds ps, (updatePrevLayer alphas eds ps).length = ps.length := by
  intro eds
  induction eds with
  | nil => intro ps; cases ps <;> simp [updatePrevLayer]
  | cons nd eds ih =>
    intro ps
    cases ps with
    | nil => simp [updatePrevLayer]
    | cons prev ps => simp [updatePrevLayer, ih]

lemma updatePrevLayer_get?_some (alphas : List ℚ) :
    ∀ eds ps j nd prev, eds.get? j = some nd → ps.get? j = some prev →
      (updatePrevLayer alphas eds ps).get? j = some
        (if nd.isValid then
          { prev with cumulatedCashFlows := prev.cumulatedCashFlows +
            (if innerProduct nd.values alphas nd.controlValue ≤
                nd.exerciseValue then nd.exerciseValue
             else nd.cumulatedCashFlows) }
         else prev) := by
  intro eds
  induction eds with
  | nil => intro ps j nd prev h; simp at h
  | cons nd0 eds ih =>
    intro ps j nd prev hed hps
    cases ps with
    | nil => simp at hps
    | cons prev0 ps =>
      cases j with
      | zero =>
        simp at hed hps
        subst hed; subst hps
        simp [updatePrevLayer]
      | succ j =>
        simp only [List.get?_cons_succ] at hed hps
        simpa [updatePrevLayer] using ih ps j nd prev hed hps

lemma updatePrevLayer_frame (alphas : List ℚ) :
    ∀ eds ps, List.Forall₂ FrameEq ps (updatePrevLayer alphas eds ps) := by
  intro eds
  induction eds with
  | nil =>
    intro ps
    cases ps with
    | nil => exact List.Forall₂.nil
    | cons p ps =>
      simp only [updatePrevLayer]
      exact List.forall₂_same.mpr fun x _ => frameEq_refl x
  | cons nd eds ih =>
    intro ps
    cases ps with
    | nil => exact List.Forall₂.nil
    | cons prev ps =>
      simp only [updatePrevLayer]
      refine List.Forall₂.cons ?_ (ih ps)
      by_cases hv : nd.isValid <;> simp [FrameEq, hv]

lemma regressionSamples_ne_nil_iff (ed : List NodeData) :
    regressionSamples ed ≠ [] ↔ ∃ nd ∈ ed, nd.isValid = true := by
  unfold regressionSamples
  rw [ne_eq, List.map_eq_nil_iff, List.filter_eq_nil_iff]
  push_neg
  rfl

/-- Elimination form of a successful processLayer call: the samples were
non-empty, and the outputs are the resized solver output and the updated
previous layer for some solver output alphas. -/
lemma processLayer_ok_elim {solve : List (List ℚ) → List ℚ → List ℚ}
    {ed prev : List NodeData} {basis : List ℚ} {updated : List NodeData}
    (h : processLayer solve ed prev = .ok (basis, updated)) :
    regressionSamples ed ≠ [] ∧
    ∃ alphas : List ℚ,
      basis = (List.range (ed.headD default).values.length).map
        (fun k => alphas.getD k 0) ∧
      updated = updatePrevLayer alphas ed prev := by
  by_cases hs : (regressionSamples ed).isEmpty
  · rw [processLayer] at h
    simp [seqMean, seqCovariance, hs] at h
  · rw [processLayer] at h
    simp only [seqMean, seqCovariance, hs, Bool.false_eq_true, if_false,
      if_neg] at h
    injection h with h2
    rw [Prod.ext_iff] at h2
    exact ⟨by simpa using hs, _, h2.1.symm, h2.2.symm⟩

lemma processLayer_error_msg {solve : List (List ℚ) → List ℚ → List ℚ}
    {ed prev : List NodeData} {e : String}
    (h : processLayer solve ed prev = .error e) : e = "empty sample set" := by
  by_cases hs : (regressionSamples ed).isEmpty
  · rw [processLayer] at h
    simp [seqMean, seqCovariance, hs] at h
    exact h.symm
  · rw [processLayer] at h
    simp [seqMean, seqCovariance, hs] at h

lemma processLayer_error_of_empty {solve : List (List ℚ) → List ℚ → List ℚ}
    {ed prev : List NodeData} (hs : regressionSamples ed = []) :
    processLayer solve ed prev = .error "empty sample set" := by
  rw [processLayer]
  simp [seqMean, seqCovariance, hs]

/-- Master structural lemma for a successful backward induction: the grid
keeps its length, there is one coefficient vector per interior layer, all
node fields other than cumulatedCashFlows are preserved pointwise, and the
last layer is returned exactly as supplied. -/
lemma lsRun_ok_spec (solve : List (List ℚ) → List ℚ → List ℚ) :
    ∀ (grid : List (List NodeData)) cs gx,
      lsRun solve grid = .ok (cs, gx) →
      gx.length = grid.length ∧ cs.length = grid.length - 1 ∧
      List.Forall₂ (List.Forall₂ FrameEq) grid gx ∧
      gx.getLast? = grid.getLast? := by
  intro grid
  induction grid with
  | nil =>
    intro cs gx h
    rw [lsRun] at h
    injection h with h1
    rw [Prod.ext_iff] at h1
    obtain ⟨h1, h2⟩ := h1
    subst h1; subst h2
    exact ⟨rfl, rfl, List.Forall₂.nil, rfl⟩
  | cons l0 tl ih =>
    cases tl with
    | nil =>
      intro cs gx h
      rw [lsRun] at h
      injection h with h1
      rw [Prod.ext_iff] at h1
      obtain ⟨h1, h2⟩ := h1
      subst h1; subst h2
      refine ⟨rfl, rfl, ?_, rfl⟩
      exact List.forall₂_same.mpr fun x _ =>
        List.forall₂_same.mpr fun nd _ => frameEq_refl nd
    | cons l1 rest =>
      intro cs gx h
      rw [lsRun] at h
      cases hrec : lsRun solve (l1 :: rest) with
      | error e => rw [hrec] at h; exact absurd h (by simp)
      | ok p =>
        obtain ⟨cs0, tail⟩ := p
        rw [hrec] at h
        dsimp only at h
        cases tail with
        | nil =>
          exfalso
          obtain ⟨hlen, -⟩ := ih cs0 [] hrec
          simp at hlen
        | cons l1x restx =>
          dsimp only at h
          cases hpl : processLayer solve l1x l0 with
          | error e => rw [hpl] at h; exact absurd h (by simp)
          | ok q =>
            obtain ⟨c1, l0x⟩ := q
            rw [hpl] at h
            dsimp only at h
            injection h with h1
            rw [Prod.ext_iff] at h1
            obtain ⟨h1, h2⟩ := h1
            subst h1; subst h2
            obtain ⟨hlen, hclen, hfr, hlast⟩ := ih cs0 (l1x :: restx) hrec
            obtain ⟨-, alphas, -, hupd⟩ := processLayer_ok_elim hpl
            refine ⟨by simpa using hlen, by simpa using hclen, ?_, ?_⟩
            · refine List.Forall₂.cons ?_ hfr
              rw [hupd]
              exact updatePrevLayer_frame alphas l1x l0
            · rw [List.getLast?_cons_cons]
              rw [hlast]
              cases rest with
              | nil => rfl
              | cons a b => simp [List.getLast?_cons_cons]

/-- Every failure of the backward induction carries the
insufficient-data message raised by the statistics accumulator. -/
lemma lsRun_error_msg (solve : List (List ℚ) → List ℚ → List ℚ) :
    ∀ (grid : List (List NodeData)) e,
      lsRun solve grid = .error e → e = "empty sample set" := by
  intro grid
  induction grid with
  | nil => intro e h; rw [lsRun] at h; exact absurd h (by simp)
  | cons l0 tl ih =>
    cases tl with
    | nil => intro e h; rw [lsRun] at h; exact absurd h (by simp)
    | cons l1 rest =>
      intro e h
      rw [lsRun] at h
      cases hrec : lsRun solve (l1 :: rest) with
      | error e0 =>
        rw [hrec] at h
        dsimp only at h
        injection h with h1
        subst h1
        exact ih e0 hrec
      | ok p =>
        obtain ⟨cs0, tail⟩ := p
        rw [hrec] at h
        dsimp only at h
        cases tail with
        | nil =>
          exfalso
          obtain ⟨hlen, -⟩ := lsRun_ok_spec solve _ cs0 [] hrec
          simp at hlen
        | cons l1x restx =>
          dsimp only at h
          cases hpl : processLayer solve l1x l0 with
          | error e0 =>
            rw [hpl] at h
            dsimp only at h
            injection h with h1
            subst h1
            exact processLayer_error_msg hpl
          | ok q => rw [hpl] at h; exact absurd h (by simp)

lemma forall₂_mem_right {α β : Type} {R : α → β → Prop} {l1 : List α}
    {l2 : List β} (h : List.Forall₂ R l1 l2) {b : β} (hb : b ∈ l2) :
    ∃ a ∈ l1, R a b := by
  induction h with
  | nil => simp at hb
  | cons hR htail ih =>
    rcases List.mem_cons.mp hb with hb | hb
    · subst hb; exact ⟨_, List.mem_cons_self _ _, hR⟩
    · obtain ⟨a, ha, hr⟩ := ih hb
      exact ⟨a, List.mem_cons_of_mem _ ha, hr⟩

/-- A successful backward induction certifies that every interior
(exercise) layer of the input grid contains at least one valid node. -/
lemma lsRun_ok_valid (solve : List (List ℚ) → List ℚ → List ℚ) :
    ∀ (grid : List (List NodeData)) cs gx,
      lsRun solve grid = .ok (cs, gx) →
      ∀ i, 1 ≤ i → i < grid.length →
        ∃ nd ∈ grid.getD i [], nd.isValid = true := by
  intro grid
  induction grid with
  | nil => intro cs gx h i h1 h2; simp at h2
  | cons l0 tl ih =>
    cases tl with
    | nil =>
      intro cs gx h i h1 h2
      simp at h2
      omega
    | cons l1 rest =>
      intro cs gx h i h1 h2
      rw [lsRun] at h
      cases hrec : lsRun solve (l1 :: rest) with
      | error e => rw [hrec] at h; exact absurd h (by simp)
      | ok p =>
        obtain ⟨cs0, tail⟩ := p
        rw [hrec] at h
        dsimp only at h
        cases tail with
        | nil =>
          exfalso
          obtain ⟨hlen, -⟩ := lsRun_ok_spec solve _ cs0 [] hrec
          simp at hlen
        | cons l1x restx =>
          dsimp only at h
          cases hpl : processLayer solve l1x l0 with
          | error e => rw [hpl] at h; exact absurd h (by simp)
          | ok q =>
            cases i with
            | zero => omega
            | succ i =>
              cases i with
              | zero =>
                obtain ⟨hne, -⟩ := processLayer_ok_elim hpl
                rw [regressionSamples_ne_nil_iff] at hne
                obtain ⟨ndx, hmem, hvalid⟩ := hne
                obtain ⟨-, -, hfr, -⟩ := lsRun_ok_spec solve _ cs0 _ hrec
                have hfr1 : List.Forall₂ FrameEq l1 l1x := by
                  cases hfr with
                  | cons hh _ => exact hh
                obtain ⟨nd, hnd, hR⟩ := forall₂_mem_right hfr1 hmem
                refine ⟨nd, by simpa using hnd, ?_⟩
                rw [← hR.2.2.2]
                exact hvalid
              | succ i =>
                have := ih cs0 _ hrec (i + 1) (by omega) (by simpa using h2)
                simpa using this

/-- When every node of the grid carries N basis-function values, every
coefficient vector produced by the backward induction has length N. -/
lemma lsRun_coeff_len (solve : List (List ℚ) → List ℚ → List ℚ) (N : ℕ) :
    ∀ (grid : List (List NodeData)) cs gx,
      lsRun solve grid = .ok (cs, gx) →
      (∀ layer ∈ grid, ∀ nd ∈ layer, nd.values.length = N) →
      ∀ c ∈ cs, c.length = N := by
  intro grid
  induction grid with
  | nil =>
    intro cs gx h hvals c hc
    rw [lsRun] at h
    injection h with h1
    rw [Prod.ext_iff] at h1
    dsimp only at h1
    rw [← h1.1] at hc
    simp at hc
  | cons l0 tl ih =>
    cases tl with
    | nil =>
      intro cs gx h hvals c hc
      rw [lsRun] at h
      injection h with h1
      rw [Prod.ext_iff] at h1
      dsimp only at h1
      rw [← h1.1] at hc
      simp at hc
    | cons l1 rest =>
      intro cs gx h hvals c hc
      rw [lsRun] at h
      cases hrec : lsRun solve (l1 :: rest) with
      | error e => rw [hrec] at h; exact absurd h (by simp)
      | ok p =>
        obtain ⟨cs0, tail⟩ := p
        rw [hrec] at h
        dsimp only at h
        cases tail with
        | nil =>
          exfalso
          obtain ⟨hlen, -⟩ := lsRun_ok_spec solve _ cs0 [] hrec
          simp at hlen
        | cons l1x restx =>
          dsimp only at h
          cases hpl : processLayer solve l1x l0 with
          | error e => rw [hpl] at h; exact absurd h (by simp)
          | ok q =>
            obtain ⟨c1, l0x⟩ := q
            rw [hpl] at h
            dsimp only at h
            injection h with h1
            rw [Prod.ext_iff] at h1
            obtain ⟨h1, h2⟩ := h1
            subst h1; subst h2
            obtain ⟨hne, alphas, hbasis, -⟩ := processLayer_ok_elim hpl
            rcases List.mem_cons.mp hc with hc | hc
            · subst hc
              rw [hbasis, List.length_map, List.length_range]
              rw [regressionSamples_ne_nil_iff] at hne
              obtain ⟨ndx, hndx, -⟩ := hne
              obtain ⟨-, -, hfr, -⟩ := lsRun_ok_spec solve _ cs0 _ hrec
              have hfr1 : List.Forall₂ FrameEq l1 l1x := by
                cases hfr with
                | cons hh _ => exact hh
              cases l1x with
              | nil => simp at hndx
              | cons hx tx =>
                cases hfr1 with
                | cons hhead htail =>
                  rename_i h1a t1a
                  simp only [List.headD_cons]
                  rw [hhead.1]
                  exact hvals (h1a :: t1a) (by simp) h1a (by simp)
            · exact ih cs0 _ hrec
                (fun layer hl nd hnd =>
                  hvals layer (List.mem_cons_of_mem _ hl) nd hnd)
                c hc

lemma gsMean_weight_one (xs : List ℚ) (h : xs ≠ []) :
    gsMean (xs.map fun x => (x, (1 : ℚ))) =
      .ok (xs.sum / (xs.length : ℚ)) := by
  have h1 : ((xs.map fun x => (x, (1 : ℚ))).map fun s => s.1 * s.2).sum
      = xs.sum := by
    rw [List.map_map]
    have hc1 : ((fun s : ℚ × ℚ => s.1 * s.2) ∘ fun x => (x, (1 : ℚ)))
        = fun x => x * 1 := rfl
    rw [hc1]
    simp
  have h2 : ((xs.map fun x => (x, (1 : ℚ))).map fun s => s.2).sum
      = (xs.length : ℚ) := by
    rw [List.map_map]
    have hc : ((fun s : ℚ × ℚ => s.2) ∘ fun x => (x, (1 : ℚ)))
        = fun _ => (1 : ℚ) := rfl
    rw [hc, List.map_const', List.sum_replicate, nsmul_eq_mul, mul_one]
  rw [gsMean, if_neg (by simpa using h), h1, h2]

/-- Elimination form of a successful top-level regression call. -/
lemma genericLS_ok_elim {solve : List (List ℚ) → List ℚ → List ℚ}
    {grid : List (List NodeData)} {coeffs : List (List ℚ)}
    {grid2 : List (List NodeData)} {est : ℚ}
    (h : genericLongstaffSchwartzRegression solve grid
        = .ok (coeffs, grid2, est)) :
    lsRun solve grid = .ok (coeffs, grid2) ∧
    ∃ l0 t, grid2 = l0 :: t ∧ l0 ≠ [] ∧
      est = (l0.map fun nd => nd.cumulatedCashFlows).sum / (l0.length : ℚ) := by
  rw [genericLongstaffSchwartzRegression] at h
  cases hrec : lsRun solve grid with
  | error e => rw [hrec] at h; exact absurd h (by simp)
  | ok p =>
    obtain ⟨bc, fd⟩ := p
    rw [hrec] at h
    dsimp only at h
    cases fd with
    | nil => exact absurd h (by simp)
    | cons ed t =>
      dsimp only at h
      cases hg : gsMean (ed.map fun nd => (nd.cumulatedCashFlows, (1 : ℚ))) with
      | error e => rw [hg] at h; exact absurd h (by simp)
      | ok e0 =>
        rw [hg] at h
        dsimp only at h
        injection h with h1
        rw [Prod.ext_iff] at h1
        obtain ⟨hA, h1⟩ := h1
        rw [Prod.ext_iff] at h1
        obtain ⟨hB, hC⟩ := h1
        dsimp only at hA hB hC
        subst hA
        subst hC
        have hed : ed ≠ [] := by
          intro hnil
          subst hnil
          simp [gsMean] at hg
        have hg2 : gsMean ((ed.map fun nd => nd.cumulatedCashFlows).map
            fun x => (x, (1 : ℚ))) = .ok e0 := by
          rw [List.map_map]
          exact hg
        rw [gsMean_weight_one _ (by simpa using hed)] at hg2
        injection hg2 with h3
        refine ⟨by rw [hB], ed, t, hB.symm, hed, ?_⟩
        rw [List.length_map] at h3
        exact h3.symm


lemma gridW_run :
    genericLongstaffSchwartzRegression solveW gridW
      = .ok ([[5]], gridWOut, 12) := by
  norm_num [genericLongstaffSchwartzRegression, lsRun, processLayer, seqMean,
    seqCovariance, regressionSamples, updatePrevLayer, innerProduct, gsMean,
    solveW, gridW, gridWOut, List.range_succ]

lemma edW_processLayer :
    processLayer solveW edW prevW = .ok ([5], [⟨[], 11, 0, 0, true⟩]) := by
  norm_num [processLayer, seqMean, seqCovariance, regressionSamples,
    updatePrevLayer, innerProduct, solveW, edW, prevW, List.range_succ]

/-- C1: in genericLongstaffSchwartzRegression, each backward-induction
layer step (embedded as processLayer, applied by lsRun at every layer index
i from S-1 down to 1) computes, for every node j with isValid true, the
estimated continuation value as controlValue plus the dot product of the
node's basis values with the layer's regression coefficients, and adds
exerciseValue to the previous layer's node j when that estimate is at most
exerciseValue, otherwise adds the node's own cumulatedCashFlows; nodes with
isValid false leave the previous layer's node unchanged. -/
theorem processLayer_exercise_decision
    (solve : List (List ℚ) → List ℚ → List ℚ)
    (exerciseData prevLayer : List NodeData) (N : ℕ)
    (basis : List ℚ) (updated : List NodeData)
    (hvals : ∀ nd ∈ exerciseData, nd.values.length = N)
    (hok : processLayer solve exerciseData prevLayer = .ok (basis, updated)) :
    ∀ j nd prev, exerciseData.get? j = some nd →
      prevLayer.get? j = some prev →
      updated.get? j = some
        (if nd.isValid then
          { prev with cumulatedCashFlows := prev.cumulatedCashFlows +
            (if innerProduct nd.values basis nd.controlValue ≤
                nd.exerciseValue
             then nd.exerciseValue else nd.cumulatedCashFlows) }
         else prev) := by
  obtain ⟨hne, alphas, hbasis, hupd⟩ := processLayer_ok_elim hok
  intro j nd prev hed hprev
  have hmem : nd ∈ exerciseData := List.get?_mem hed
  have hN0 : (exerciseData.headD default).values.length = N := by
    cases exerciseData with
    | nil => simp at hed
    | cons h0 t0 => simpa using hvals h0 (by simp)
  have hb2 : innerProduct nd.values basis nd.controlValue
      = innerProduct nd.values alphas nd.controlValue := by
    rw [hbasis, hN0]
    exact innerProduct_trunc nd.values alphas nd.controlValue N (hvals nd hmem)
  rw [hupd, updatePrevLayer_get?_some alphas _ _ j nd prev hed hprev, hb2]

/-- Witness for C1: the single valid node of edW has estimated
continuation value 0 + 1*5 = 5, at most its exercise value 10, so the
previous layer's cash flows 1 receive the exercise value. -/
theorem processLayer_exercise_decision_witness :
    ([(⟨[], 11, 0, 0, true⟩ : NodeData)]).get? 0 = some
      (if (⟨[1], 5, 0, 10, true⟩ : NodeData).isValid then
        { (⟨[], 1, 0, 0, true⟩ : NodeData) with cumulatedCashFlows :=
            (⟨[], 1, 0, 0, true⟩ : NodeData).cumulatedCashFlows +
            (if innerProduct (⟨[1], 5, 0, 10, true⟩ : NodeData).values [5]
                (⟨[1], 5, 0, 10, true⟩ : NodeData).controlValue ≤
                (⟨[1], 5, 0, 10, true⟩ : NodeData).exerciseValue
             then (⟨[1], 5, 0, 10, true⟩ : NodeData).exerciseValue
             else (⟨[1], 5, 0, 10, true⟩ : NodeData).cumulatedCashFlows) }
       else (⟨[], 1, 0, 0, true⟩ : NodeData)) :=
  processLayer_exercise_decision solveW edW prevW 1 [5]
    [⟨[], 11, 0, 0, true⟩]
    (by intro nd hnd; simp only [edW, List.mem_singleton] at hnd
        subst hnd; rfl)
    edW_processLayer 0 _ _ rfl rfl

/-- C5: an exercise layer (index at least 1) in which no node is valid
makes genericLongstaffSchwartzRegression fail with the insufficient-data
(empty sample set) error instead of producing a result. -/
theorem genericLS_zero_valid_layer_fails
    (solve : List (List ℚ) → List ℚ → List ℚ)
    (grid : List (List NodeData)) (i : ℕ)
    (h1 : 1 ≤ i) (h2 : i < grid.length)
    (hall : ∀ nd ∈ grid.getD i [], nd.isValid = false) :
    genericLongstaffSchwartzRegression solve grid
      = .error "empty sample set" := by
  cases hrec : lsRun solve grid with
  | error e =>
    have he := lsRun_error_msg solve grid e hrec
    subst he
    rw [genericLongstaffSchwartzRegression, hrec]
  | ok p =>
    exfalso
    obtain ⟨cs, gx⟩ := p
    obtain ⟨nd, hmem, hvalid⟩ := lsRun_ok_valid solve grid cs gx hrec i h1 h2
    have hfalse := hall nd hmem
    rw [hfalse] at hvalid
    exact Bool.false_ne_true hvalid

/-- Witness for C5: gridBad's exercise layer holds a single invalid node,
so the regression fails with the empty-sample-set error. -/
theorem genericLS_zero_valid_layer_fails_witness :
    genericLongstaffSchwartzRegression solveW gridBad
      = .error "empty sample set" :=
  genericLS_zero_valid_layer_fails solveW gridBad 1 (by norm_num)
    (by norm_num [gridBad])
    (by intro nd hnd; simp [gridBad] at hnd; rw [hnd])

/-- C6: for a grid with S layers (S at least 1) and N basis functions per
node, a successful genericLongstaffSchwartzRegression call produces exactly
S-1 coefficient vectors, each of length N. -/
theorem genericLS_coefficient_shape
    (solve : List (List ℚ) → List ℚ → List ℚ)
    (grid : List (List NodeData)) (coeffs : List (List ℚ))
    (grid2 : List (List NodeData)) (est : ℚ) (N S : ℕ)
    (hS : grid.length = S) (hS1 : 1 ≤ S)
    (hvals : ∀ layer ∈ grid, ∀ nd ∈ layer, nd.values.length = N)
    (hok : genericLongstaffSchwartzRegression solve grid
        = .ok (coeffs, grid2, est)) :
    coeffs.length = S - 1 ∧ ∀ c ∈ coeffs, c.length = N := by
  obtain ⟨hrun, -⟩ := genericLS_ok_elim hok
  obtain ⟨-, hclen, -, -⟩ := lsRun_ok_spec solve grid coeffs grid2 hrun
  exact ⟨by rw [← hS]; exact hclen,
    lsRun_coeff_len solve N grid coeffs grid2 hrun hvals⟩

/-- Witness for C6: gridW has 2 layers and 1 basis function, and the run
produces one coefficient vector of length 1. -/
theorem genericLS_coefficient_shape_witness :
    ([[(5 : ℚ)]] : List (List ℚ)).length = 2 - 1 ∧
    ∀ c ∈ ([[(5 : ℚ)]] : List (List ℚ)), c.length = 1 :=
  genericLS_coefficient_shape solveW gridW [[5]] gridWOut 12 1 2 rfl
    (by norm_num)
    (by intro layer hl nd hnd
        simp only [gridW, List.mem_cons, List.not_mem_nil, or_false] at hl
        rcases hl with hl | hl <;>
          (subst hl
           simp only [List.mem_cons, List.not_mem_nil, or_false] at hnd
           rcases hnd with h | h | h <;> (subst h; rfl)))
    gridW_run

/-- C7: the scalar produced by a successful call is the unweighted
arithmetic mean, over all paths, of layer 0's cumulatedCashFlows as they
stand after the backward induction completed. -/
theorem genericLS_estimate_layer0_mean
    (solve : List (List ℚ) → List ℚ → List ℚ)
    (grid : List (List NodeData)) (coeffs : List (List ℚ))
    (grid2 : List (List NodeData)) (est : ℚ)
    (hok : genericLongstaffSchwartzRegression solve grid
        = .ok (coeffs, grid2, est)) :
    ∃ l0 t, grid2 = l0 :: t ∧
      est = (l0.map fun nd => nd.cumulatedCashFlows).sum / (l0.length : ℚ) := by
  obtain ⟨-, l0, t, hg, -, hest⟩ := genericLS_ok_elim hok
  exact ⟨l0, t, hg, hest⟩

/-- Witness for C7: the gridW run returns 12 = (11+12+13)/3, the mean of
layer 0's final cash flows. -/
theorem genericLS_estimate_layer0_mean_witness :
    ∃ l0 t, gridWOut = l0 :: t ∧
      (12 : ℚ) = (l0.map fun nd => nd.cumulatedCashFlows).sum /
        (l0.length : ℚ) :=
  genericLS_estimate_layer0_mean solveW gridW [[5]] gridWOut 12 gridW_run

/-- C10: a successful genericLongstaffSchwartzRegression call writes only
the cumulatedCashFlows fields: every other field of every node is
unchanged (pointwise frame relation), the grid keeps its shape, and the
top layer is returned exactly as supplied. -/
theorem genericLS_frame_effect
    (solve : List (List ℚ) → List ℚ → List ℚ)
    (grid : List (List NodeData)) (coeffs : List (List ℚ))
    (grid2 : List (List NodeData)) (est : ℚ)
    (hok : genericLongstaffSchwartzRegression solve grid
        = .ok (coeffs, grid2, est)) :
    grid2.length = grid.length ∧
    List.Forall₂ (List.Forall₂ FrameEq) grid grid2 ∧
    grid2.getLast? = grid.getLast? := by
  obtain ⟨hrun, -⟩ := genericLS_ok_elim hok
  obtain ⟨hlen, -, hfr, hlast⟩ := lsRun_ok_spec solve grid coeffs grid2 hrun
  exact ⟨hlen, hfr, hlast⟩

/-- Witness for C10: the gridW run preserves shape, all non-cash-flow
fields, and the whole top layer. -/
theorem genericLS_frame_effect_witness :
    gridWOut.length = gridW.length ∧
    List.Forall₂ (List.Forall₂ FrameEq) gridW gridWOut ∧
    gridWOut.getLast? = gridW.getLast? :=
  genericLS_frame_effect solveW gridW [[5]] gridWOut 12 gridW_run

namespace DE

lemma h3fill : fillInitialPopulation rsHalf costId [5] [0] [1] 1 0 =
    .ok ([⟨[5], 5⟩], 0) := by
  norm_num [fillInitialPopulation, fillRest, costId]

lemma h3mask : getCrossoverMask rsHalf [9 / 10] 1 0 = ([[1]], [[0]], 1) := by
  norm_num [getCrossoverMask, maskRow, nextReal, rsHalf]

lemma h3clip : clipValues rsHalf [5] [0] [1] [5] 1 = ([3], 2) := by
  norm_num [clipValues, nextReal, rsHalf]

lemma h3loop : crossoverLoop rsHalf true [0] [1] costId
    [⟨[5], 5⟩] [⟨[5], 5⟩] [⟨[5], 5⟩] [[1]] [[0]] 1 = ([⟨[3], 3⟩], 2) := by
  norm_num [crossoverLoop, h3clip, vadd, vmul, costId]

lemma h3cross : crossover rsHalf
    ⟨Strategy.Rand1Standard, CrossoverType.Normal, 1, 1 / 5, 9 / 10, 0,
     true, false⟩
    [0] [1] costId [⟨[5], 5⟩] [⟨[5], 5⟩] [⟨[5], 5⟩] [⟨[5], 5⟩] [9 / 10] 0 =
    ⟨[⟨[3], 3⟩], [9 / 10], 2⟩ := by
  norm_num [crossover, getMutationProbabilities, h3mask, h3loop]

lemma h3gen : calculateNextGeneration rsHalf ssNil
    ⟨Strategy.Rand1Standard, CrossoverType.Normal, 1, 1 / 5, 9 / 10, 0,
     true, false⟩
    [0] [1] costId ⟨[5], 5⟩ [⟨[5], 5⟩] [1 / 5] [9 / 10] 0 0 =
    ⟨[⟨[3], 3⟩], [1 / 5], [9 / 10], 2, 3⟩ := by
  norm_num [calculateNextGeneration, shuffleCall, applyPerm, ssNil,
    List.range_succ, zipWith3, vadd, vsub, smul, h3cross]

lemma h3step : deLoop rsHalf ssNil
    ⟨Strategy.Rand1Standard, CrossoverType.Normal, 1, 1 / 5, 9 / 10, 0,
     true, false⟩
    ⟨1, 0, 100⟩ [0] [1] costId 2
    ⟨[⟨[5], 5⟩], ⟨[5], 5⟩, 5, 0, [1 / 5], [9 / 10], 0, 0, 0⟩ [] =
    (ECType.MaxIterations,
     ⟨[⟨[3], 3⟩], ⟨[3], 3⟩, 3, 0, [1 / 5], [9 / 10], 2, 3, 2⟩,
     [[⟨[3], 3⟩]]) := by
  simp only [deLoop, h3gen, checkMaxIterations]
  norm_num [checkStationaryFunctionValue, frontMin]

lemma h3run : minimize cfgC3 ecOne probC3 rsHalf ssNil =
    .ok ⟨ECType.MaxIterations, [3], 3, ⟨[3], 3⟩, [[⟨[3], 3⟩]]⟩ := by
  simp only [minimize, probC3, cfgC3, ecOne, h3fill]
  norm_num [frontMin, List.replicate, h3step]

lemma h2run : minimize cfgC3 ecOne probC2 rsHalf ssNil =
    .error "cost failure" := by
  simp only [minimize, probC2, cfgC3, ecOne]
  norm_num [fillInitialPopulation, costFail]

lemma h9fill : fillInitialPopulation rsHalf costQuad [3] [0] [4] 2 0 =
    .ok ([⟨[3], 1 / 4⟩, ⟨[2], 1 / 4⟩], 1) := by
  norm_num [fillInitialPopulation, fillRest, randomPoint, nextReal,
    rsHalf, costQuad]

lemma h9mask : getCrossoverMask rsHalf [1, 1] 1 1 =
    ([[1], [1]], [[0], [0]], 3) := by
  norm_num [getCrossoverMask, maskRow, nextReal, rsHalf]

lemma h9loopA : crossoverLoop rsHalf false [0] [4] costQuad
    [⟨[3], 1 / 4⟩, ⟨[2], 1 / 4⟩] [⟨[3], 1 / 4⟩, ⟨[2], 1 / 4⟩]
    [⟨[3], 1 / 4⟩, ⟨[2], 1 / 4⟩] [[1], [1]] [[0], [0]] 3 =
    ([⟨[3], 1 / 4⟩, ⟨[2], 1 / 4⟩], 3) := by
  norm_num [crossoverLoop, vadd, vmul, costQuad]

lemma h9crossA : crossover rsHalf
    ⟨Strategy.Rand1Standard, CrossoverType.Normal, 2, 1 / 2, 1, 0,
     false, false⟩
    [0] [4] costQuad [⟨[3], 1 / 4⟩, ⟨[2], 1 / 4⟩]
    [⟨[3], 1 / 4⟩, ⟨[2], 1 / 4⟩] [⟨[3], 1 / 4⟩, ⟨[2], 1 / 4⟩]
    [⟨[3], 1 / 4⟩, ⟨[2], 1 / 4⟩] [1, 1] 1 =
    ⟨[⟨[3], 1 / 4⟩, ⟨[2], 1 / 4⟩], [1, 1], 3⟩ := by
  norm_num [crossover, getMutationProbabilities, h9mask, h9loopA]

lemma h9genA : calculateNextGeneration rsHalf ssId2
    ⟨Strategy.Rand1Standard, CrossoverType.Normal, 2, 1 / 2, 1, 0,
     false, false⟩
    [0] [4] costQuad ⟨[3], 1 / 4⟩ [⟨[3], 1 / 4⟩, ⟨[2], 1 / 4⟩]
    [1 / 2, 1 / 2] [1, 1] 1 0 =
    ⟨[⟨[3], 1 / 4⟩, ⟨[2], 1 / 4⟩], [1 / 2, 1 / 2], [1, 1], 3, 3⟩ := by
  norm_num [calculateNextGeneration, shuffleCall, applyPerm, ssId2,
    List.range_succ, zipWith3, vadd, vsub, smul, h9crossA]

lemma h9stepA : deLoop rsHalf ssId2
    ⟨Strategy.Rand1Standard, CrossoverType.Normal, 2, 1 / 2, 1, 0,
     false, false⟩
    ⟨1, 0, 100⟩ [0] [4] costQuad 2
    ⟨[⟨[3], 1 / 4⟩, ⟨[2], 1 / 4⟩], ⟨[3], 1 / 4⟩, 1 / 4, 0,
     [1 / 2, 1 / 2], [1, 1], 1, 0, 0⟩ [] =
    (ECType.MaxIterations,
     ⟨[⟨[3], 1 / 4⟩, ⟨[2], 1 / 4⟩], ⟨[3], 1 / 4⟩, 1 / 4, 0,
      [1 / 2, 1 / 2], [1, 1], 3, 3, 2⟩,
     [[⟨[3], 1 / 4⟩, ⟨[2], 1 / 4⟩]]) := by
  simp only [deLoop, h9genA, checkMaxIterations]
  norm_num [checkStationaryFunctionValue, frontMin]

lemma h9runA : minimize cfgC9 ecOne probC9 rsHalf ssId2 =
    .ok ⟨ECType.MaxIterations, [3], 1 / 4, ⟨[3], 1 / 4⟩,
      [[⟨[3], 1 / 4⟩, ⟨[2], 1 / 4⟩]]⟩ := by
  simp only [minimize, probC9, cfgC9, ecOne, h9fill]
  norm_num [frontMin, List.replicate, h9stepA]

lemma h9loopB : crossoverLoop rsHalf false [0] [4] costQuad
    [⟨[3], 1 / 4⟩, ⟨[2], 1 / 4⟩] [⟨[5 / 2], 1 / 4⟩, ⟨[5 / 2], 1 / 4⟩]
    [⟨[3], 1 / 4⟩, ⟨[2], 1 / 4⟩] [[1], [1]] [[0], [0]] 3 =
    ([⟨[5 / 2], 0⟩, ⟨[5 / 2], 0⟩], 3) := by
  norm_num [crossoverLoop, vadd, vmul, costQuad]

lemma h9crossB : crossover rsHalf
    ⟨Strategy.Rand1Standard, CrossoverType.Normal, 2, 1 / 2, 1, 0,
     false, false⟩
    [0] [4] costQuad [⟨[3], 1 / 4⟩, ⟨[2], 1 / 4⟩]
    [⟨[5 / 2], 1 / 4⟩, ⟨[5 / 2], 1 / 4⟩]
    [⟨[5 / 2], 1 / 4⟩, ⟨[5 / 2], 1 / 4⟩]
    [⟨[3], 1 / 4⟩, ⟨[2], 1 / 4⟩] [1, 1] 1 =
    ⟨[⟨[5 / 2], 0⟩, ⟨[5 / 2], 0⟩], [1, 1], 3⟩ := by
  norm_num [crossover, getMutationProbabilities, h9mask, h9loopB]

lemma h9genB : calculateNextGeneration rsHalf ssSwap2
    ⟨Strategy.Rand1Standard, CrossoverType.Normal, 2, 1 / 2, 1, 0,
     false, false⟩
    [0] [4] costQuad ⟨[3], 1 / 4⟩ [⟨[3], 1 / 4⟩, ⟨[2], 1 / 4⟩]
    [1 / 2, 1 / 2] [1, 1] 1 0 =
    ⟨[⟨[5 / 2], 0⟩, ⟨[5 / 2], 0⟩], [1 / 2, 1 / 2], [1, 1], 3, 3⟩ := by
  norm_num [calculateNextGeneration, shuffleCall, applyPerm, ssSwap2,
    List.range_succ, zipWith3, vadd, vsub, smul, h9crossB]

lemma h9stepB : deLoop rsHalf ssSwap2
    ⟨Strategy.Rand1Standard, CrossoverType.Normal, 2, 1 / 2, 1, 0,
     false, false⟩
    ⟨1, 0, 100⟩ [0] [4] costQuad 2
    ⟨[⟨[3], 1 / 4⟩, ⟨[2], 1 / 4⟩], ⟨[3], 1 / 4⟩, 1 / 4, 0,
     [1 / 2, 1 / 2], [1, 1], 1, 0, 0⟩ [] =
    (ECType.MaxIterations,
     ⟨[⟨[5 / 2], 0⟩, ⟨[5 / 2], 0⟩], ⟨[5 / 2], 0⟩, 0, 0,
      [1 / 2, 1 / 2], [1, 1], 3, 3, 2⟩,
     [[⟨[5 / 2], 0⟩, ⟨[5 / 2], 0⟩]]) := by
  simp only [deLoop, h9genB, checkMaxIterations]
  norm_num [checkStationaryFunctionValue, frontMin]

lemma h9runB : minimize cfgC9 ecOne probC9 rsHalf ssSwap2 =
    .ok ⟨ECType.MaxIterations, [5 / 2], 0, ⟨[5 / 2], 0⟩,
      [[⟨[5 / 2], 0⟩, ⟨[5 / 2], 0⟩]]⟩ := by
  simp only [minimize, probC9, cfgC9, ecOne, h9fill]
  norm_num [frontMin, List.replicate, h9stepB]

lemma frontMin_length : ∀ pop : List Candidate,
    (frontMin pop).length = pop.length := by
  intro pop
  induction pop with
  | nil => rfl
  | cons cd cs ih =>
    rw [frontMin]
    cases hm : frontMin cs with
    | nil =>
      rw [hm] at ih
      simp at ih
      simp [ih]
    | cons m rest =>
      rw [hm] at ih
      by_cases hc : m.cost < cd.cost <;> simp [hc, ← ih]

lemma frontMin_head_le : ∀ (pop : List Candidate) (cd : Candidate),
    cd ∈ pop → ((frontMin pop).headD default).cost ≤ cd.cost := by
  intro pop
  induction pop with
  | nil => intro cd h; simp at h
  | cons c0 cs ih =>
    intro cd h
    rw [frontMin]
    cases hm : frontMin cs with
    | nil =>
      have hlen := frontMin_length cs
      rw [hm] at hlen
      have hcs : cs = [] := List.length_eq_zero.mp hlen.symm
      subst hcs
      simp only [List.mem_singleton] at h
      subst h
      exact le_refl _
    | cons m rest =>
      dsimp only
      rcases List.mem_cons.mp h with h | h
      · subst h
        by_cases hc : m.cost < cd.cost
        · simp only [if_pos hc, List.headD_cons]
          exact le_of_lt hc
        · simp only [if_neg hc, List.headD_cons]
          exact le_refl _
      · have := ih cd h
        rw [hm] at this
        simp only [List.headD_cons] at this
        by_cases hc : m.cost < c0.cost
        · simpa [hc] using this
        · simp only [if_neg hc, List.headD_cons]
          exact le_trans (not_lt.mp hc) this

lemma deLoop_best_mono (rs : ℕ → ℚ) (ss : ℕ → List ℕ) (cfg : Configuration)
    (ec : EndCriteria) (lower upper : List ℚ)
    (costFn : List ℚ → Except String ℚ) :
    ∀ (fuel : ℕ) (st : LoopState) (trace : List (List Candidate)),
      ((deLoop rs ss cfg ec lower upper costFn fuel st
          trace).2.1.bestMemberEver.cost ≤ st.bestMemberEver.cost) ∧
      ((deLoop rs ss cfg ec lower upper costFn fuel st
          trace).2.1.bestMemberEver ≠ st.bestMemberEver →
        (deLoop rs ss cfg ec lower upper costFn fuel st
          trace).2.1.bestMemberEver.cost < st.bestMemberEver.cost) := by
  intro fuel
  induction fuel with
  | zero =>
    intro st trace
    rw [deLoop]
    exact ⟨le_refl _, fun h => absurd rfl h⟩
  | succ fuel ih =>
    intro st trace
    rw [deLoop]
    by_cases hmax : checkMaxIterations ec st.iteration = true
    · simp only [hmax, if_true]
      exact ⟨le_refl _, fun h => absurd rfl h⟩
    · simp only [hmax, Bool.false_eq_true, if_false]
      rcases hsc : checkStationaryFunctionValue ec st.fxOld
        ((frontMin (calculateNextGeneration rs ss cfg lower upper costFn
          st.bestMemberEver st.population st.currGenSizeWeights
          st.currGenCrossover st.rngCount st.shufCount).population).headD
            default).cost st.statIt with ⟨stop, statIt2⟩
      dsimp only
      set front := ((frontMin (calculateNextGeneration rs ss cfg lower
        upper costFn st.bestMemberEver st.population st.currGenSizeWeights
        st.currGenCrossover st.rngCount st.shufCount).population).headD
          default) with hfront
      have hb2 : (if front.cost < st.bestMemberEver.cost then front
          else st.bestMemberEver).cost ≤ st.bestMemberEver.cost ∧
          ((if front.cost < st.bestMemberEver.cost then front
            else st.bestMemberEver) ≠ st.bestMemberEver →
           (if front.cost < st.bestMemberEver.cost then front
            else st.bestMemberEver).cost < st.bestMemberEver.cost) := by
        by_cases hf : front.cost < st.bestMemberEver.cost
        · simp only [if_pos hf]
          exact ⟨le_of_lt hf, fun _ => hf⟩
        · simp only [if_neg hf]
          exact ⟨le_refl _, fun h => absurd rfl h⟩
      have key : ∀ (st2 : LoopState) (tr2 : List (List Candidate)),
          st2.bestMemberEver =
            (if front.cost < st.bestMemberEver.cost then front
             else st.bestMemberEver) →
          ((deLoop rs ss cfg ec lower upper costFn fuel st2
              tr2).2.1.bestMemberEver.cost ≤ st.bestMemberEver.cost) ∧
          ((deLoop rs ss cfg ec lower upper costFn fuel st2
              tr2).2.1.bestMemberEver ≠ st.bestMemberEver →
            (deLoop rs ss cfg ec lower upper costFn fuel st2
              tr2).2.1.bestMemberEver.cost < st.bestMemberEver.cost) := by
        intro st2 tr2 hbb
        obtain ⟨ihle, ihlt⟩ := ih st2 tr2
        rw [hbb] at ihle ihlt
        constructor
        · exact le_trans ihle hb2.1
        · intro hne
          by_cases heq : (deLoop rs ss cfg ec lower upper costFn fuel st2
              tr2).2.1.bestMemberEver =
              (if front.cost < st.bestMemberEver.cost then front
               else st.bestMemberEver)
          · rw [heq]
            apply hb2.2
            intro hcontra
            rw [heq, hcontra] at hne
            exact hne rfl
          · exact lt_of_lt_of_le (ihlt heq) hb2.1
      by_cases hstop : stop = true
      · rw [if_pos hstop]
        exact hb2
      · rw [if_neg hstop]
        exact key _ _ rfl

lemma minimize_writeback (cfg : Configuration) (ec : EndCriteria)
    (p : Problem) (rs : ℕ → ℚ) (ss : ℕ → List ℕ) (res : MinimizeResult)
    (h : minimize cfg ec p rs ss = .ok res) :
    res.currentValue = res.bestMemberEver.values ∧
    res.functionValue = res.bestMemberEver.cost := by
  rw [minimize] at h
  cases hfill : fillInitialPopulation rs p.costFunction p.currentValue
      p.lowerBound p.upperBound cfg.populationMembers 0 with
  | error e => rw [hfill] at h; exact absurd h (by simp)
  | ok q =>
    obtain ⟨pop0, c1⟩ := q
    rw [hfill] at h
    dsimp only at h
    rcases hdl : deLoop rs ss cfg ec p.lowerBound p.upperBound
        p.costFunction (ec.maxIterations + 1)
        { population := frontMin pop0,
          bestMemberEver := (frontMin pop0).headD default,
          fxOld := ((frontMin pop0).headD default).cost, statIt := 0,
          currGenSizeWeights :=
            List.replicate cfg.populationMembers cfg.stepsizeWeight,
          currGenCrossover :=
            List.replicate cfg.populationMembers cfg.crossoverProbability,
          rngCount := c1, shufCount := 0, iteration := 0 } [] with
      ⟨ecT, stF, trace⟩
    rw [hdl] at h
    dsimp only at h
    injection h with h1
    subst h1
    exact ⟨rfl, rfl⟩

/-- Elimination form for one member of the crossover member loop: the
member's values are the masked recombination, bound-clipped from some
counter position when bounds are applied, and its cost is the immediate
evaluation with the QL_MAX_REAL fallback. -/
lemma crossoverLoop_elim (rs : ℕ → ℚ) (b : Bool) (lower upper : List ℚ)
    (costFn : List ℚ → Except String ℚ) :
    ∀ (os mus mis : List Candidate) (mks ivs : List (List ℚ)) (c j : ℕ)
      (cd : Candidate),
      (crossoverLoop rs b lower upper costFn os mus mis mks ivs
        c).1.get? j = some cd →
      ∃ o mu mi mk iv c0,
        os.get? j = some o ∧ mus.get? j = some mu ∧ mis.get? j = some mi ∧
        mks.get? j = some mk ∧ ivs.get? j = some iv ∧
        cd.values = (if b then
            (clipValues rs (vadd (vmul o.values iv) (vmul mu.values mk))
              lower upper mi.values c0).1
          else vadd (vmul o.values iv) (vmul mu.values mk)) ∧
        cd.cost = (match costFn cd.values with
          | .ok y => y
          | .error _ => QL_MAX_REAL) := by
  intro os
  induction os with
  | nil =>
    intro mus mis mks ivs c j cd h
    rw [show crossoverLoop rs b lower upper costFn [] mus mis mks ivs c =
      ([], c) from rfl] at h
    simp at h
  | cons o os ih =>
    intro mus mis mks ivs c j cd h
    cases mus with
    | nil =>
      rw [show crossoverLoop rs b lower upper costFn (o :: os) [] mis mks
        ivs c = ([], c) from rfl] at h
      simp at h
    | cons mu mus =>
      cases mis with
      | nil =>
        rw [show crossoverLoop rs b lower upper costFn (o :: os) (mu :: mus)
          [] mks ivs c = ([], c) from rfl] at h
        simp at h
      | cons mi mis =>
        cases mks with
        | nil =>
          rw [show crossoverLoop rs b lower upper costFn (o :: os)
            (mu :: mus) (mi :: mis) [] ivs c = ([], c) from rfl] at h
          simp at h
        | cons mk mks =>
          cases ivs with
          | nil =>
            rw [show crossoverLoop rs b lower upper costFn (o :: os)
              (mu :: mus) (mi :: mis) (mk :: mks) [] c = ([], c) from
              rfl] at h
            simp at h
          | cons iv ivs =>
            rw [crossoverLoop] at h
            rcases hvs : (if b then
                clipValues rs (vadd (vmul o.values iv) (vmul mu.values mk))
                  lower upper mi.values c
              else (vadd (vmul o.values iv) (vmul mu.values mk), c)) with
              ⟨vs2, c1⟩
            rw [hvs] at h
            dsimp only at h
            rcases hrest : crossoverLoop rs b lower upper costFn os mus mis
              mks ivs c1 with ⟨rest, c2⟩
            rw [hrest] at h
            dsimp only at h
            cases j with
            | zero =>
              rw [List.get?_cons_zero] at h
              injection h with h1
              refine ⟨o, mu, mi, mk, iv, c,
                rfl, rfl, rfl, rfl, rfl, ?_, ?_⟩
              · rw [← h1]
                by_cases hb : b = true
                · rw [if_pos hb]
                  rw [hb] at hvs
                  rw [if_pos rfl] at hvs
                  exact (congrArg Prod.fst hvs).symm
                · have hbf : b = false := Bool.eq_false_iff.mpr hb
                  rw [hbf] at hvs ⊢
                  rw [if_neg (by simp)] at hvs ⊢
                  exact (congrArg Prod.fst hvs).symm
              · rw [← h1]
            | succ j =>
              rw [List.get?_cons_succ] at h
              obtain ⟨o2, mu2, mi2, mk2, iv2, c0, h1, h2, h3, h4, h5, h6,
                h7⟩ := ih mus mis mks ivs c1 j cd (by rw [hrest]; exact h)
              exact ⟨o2, mu2, mi2, mk2, iv2, c0, h1, h2, h3, h4, h5, h6, h7⟩

/-- Cost-function failures during the initial-population build are not
caught and propagate to the caller. -/
lemma fillInitialPopulation_error (rs : ℕ → ℚ)
    (costFn : List ℚ → Except String ℚ)
    (currentValue lower upper : List ℚ) (n c : ℕ) (e : String)
    (h : costFn currentValue = .error e) :
    fillInitialPopulation rs costFn currentValue lower upper n c =
      .error e := by
  rw [fillInitialPopulation, h]

/-- Bound-handling invariant of the clipping loop: when the draws lie in
[0, 1] and the mirror coordinate lies inside [l, u], the clipped
coordinate lies inside [l, u]. -/
lemma clipValues_get (rs : ℕ → ℚ) (hr : ∀ n, 0 ≤ rs n ∧ rs n ≤ 1) :
    ∀ (vs ls us ms : List ℚ) (c j : ℕ) (v2 l u m : ℚ),
      (clipValues rs vs ls us ms c).1.get? j = some v2 →
      ls.get? j = some l → us.get? j = some u → ms.get? j = some m →
      l ≤ m → m ≤ u → l ≤ v2 ∧ v2 ≤ u := by
  intro vs
  induction vs with
  | nil =>
    intro ls us ms c j v2 l u m h _ _ _ _ _
    rw [show clipValues rs [] ls us ms c = ([], c) from rfl] at h
    simp at h
  | cons v vs ih =>
    intro ls us ms c j v2 l u m h hl hu hm hlm hmu
    cases ls with
    | nil => simp at hl
    | cons l0 ls =>
      cases us with
      | nil => simp at hu
      | cons u0 us =>
        cases ms with
        | nil => simp at hm
        | cons m0 ms =>
          rw [clipValues] at h
          dsimp only [nextReal] at h
          by_cases h1 : v > u0
          · rw [if_pos h1] at h
            dsimp only at h
            by_cases h2 : u0 + rs c * (m0 - u0) < l0
            · rw [if_pos h2] at h
              dsimp only at h
              rcases hrec : clipValues rs vs ls us ms (c + 1 + 1) with
                ⟨rest, c3⟩
              rw [hrec] at h
              dsimp only at h
              cases j with
              | zero =>
                rw [List.get?_cons_zero] at h hl hu hm
                injection h with h
                injection hl with hl
                injection hu with hu
                injection hm with hm
                subst hl
                subst hu
                subst hm
                subst h
                obtain ⟨hrA, hrB⟩ := hr (c + 1)
                constructor
                · nlinarith [mul_nonneg hrA (sub_nonneg.mpr hlm)]
                · nlinarith [mul_nonneg (sub_nonneg.mpr hrB)
                    (sub_nonneg.mpr hlm)]
              | succ j =>
                rw [List.get?_cons_succ] at h hl hu hm
                refine ih ls us ms (c + 1 + 1) j v2 l u m ?_ hl hu hm hlm hmu
                rw [hrec]
                exact h
            · rw [if_neg h2] at h
              dsimp only at h
              rcases hrec : clipValues rs vs ls us ms (c + 1) with ⟨rest, c3⟩
              rw [hrec] at h
              dsimp only at h
              cases j with
              | zero =>
                rw [List.get?_cons_zero] at h hl hu hm
                injection h with h
                injection hl with hl
                injection hu with hu
                injection hm with hm
                subst hl
                subst hu
                subst hm
                subst h
                obtain ⟨hrA, hrB⟩ := hr c
                constructor
                · exact not_lt.mp h2
                · nlinarith [mul_nonneg hrA (sub_nonneg.mpr hmu)]
              | succ j =>
                rw [List.get?_cons_succ] at h hl hu hm
                refine ih ls us ms (c + 1) j v2 l u m ?_ hl hu hm hlm hmu
                rw [hrec]
                exact h
          · rw [if_neg h1] at h
            dsimp only at h
            by_cases h2 : v < l0
            · rw [if_pos h2] at h
              dsimp only at h
              rcases hrec : clipValues rs vs ls us ms (c + 1) with ⟨rest, c3⟩
              rw [hrec] at h
              dsimp only at h
              cases j with
              | zero =>
                rw [List.get?_cons_zero] at h hl hu hm
                injection h with h
                injection hl with hl
                injection hu with hu
                injection hm with hm
                subst hl
                subst hu
                subst hm
                subst h
                obtain ⟨hrA, hrB⟩ := hr c
                constructor
                · nlinarith [mul_nonneg hrA (sub_nonneg.mpr hlm)]
                · nlinarith [mul_nonneg (sub_nonneg.mpr hrB)
                    (sub_nonneg.mpr hlm)]
              | succ j =>
                rw [List.get?_cons_succ] at h hl hu hm
                refine ih ls us ms (c + 1) j v2 l u m ?_ hl hu hm hlm hmu
                rw [hrec]
                exact h
            · rw [if_neg h2] at h
              dsimp only at h
              rcases hrec : clipValues rs vs ls us ms c with ⟨rest, c3⟩
              rw [hrec] at h
              dsimp only at h
              cases j with
              | zero =>
                rw [List.get?_cons_zero] at h hl hu hm
                injection h with h
                injection hl with hl
                injection hu with hu
                injection hm with hm
                subst hl
                subst hu
                subst hm
                subst h
                exact ⟨not_lt.mp h2, not_lt.mp h1⟩
              | succ j =>
                rw [List.get?_cons_succ] at h hl hu hm
                refine ih ls us ms c j v2 l u m ?_ hl hu hm hlm hmu
                rw [hrec]
                exact h

/-- C2 is refuted on a concrete run: probC2's cost function fails on the
user-supplied initial point, fillInitialPopulation evaluates it with no
handler (crossover's try/catch has no counterpart there, lines 534-549),
and minimize surfaces the error to its caller instead of degrading the
candidate to the sentinel cost. -/
theorem minimize_initial_cost_failure_escapes :
    minimize cfgC3 ecOne probC2 rsHalf ssNil =
      Except.error "cost failure" ∧
    probC2.costFunction probC2.currentValue =
      Except.error "cost failure" :=
  ⟨h2run, rfl⟩

/-- C2 (amended): a cost-function failure during the per-generation
crossover member loop is recovered locally, the candidate receiving the
sentinel cost QL_MAX_REAL; a failure while evaluating the initial
population, however, is not caught and propagates out of
fillInitialPopulation. -/
theorem costFailure_local_recovery_scope (rs : ℕ → ℚ) (b : Bool)
    (lower upper : List ℚ) (costFn : List ℚ → Except String ℚ)
    (os mus mis : List Candidate) (mks ivs : List (List ℚ))
    (c j : ℕ) (cd : Candidate) (e : String)
    (h : (crossoverLoop rs b lower upper costFn os mus mis mks ivs
        c).1.get? j = some cd)
    (he : costFn cd.values = Except.error e) :
    cd.cost = QL_MAX_REAL ∧
    ∀ (currentValue l2 u2 : List ℚ) (n c2 : ℕ) (e2 : String),
      costFn currentValue = Except.error e2 →
      fillInitialPopulation rs costFn currentValue l2 u2 n c2 =
        Except.error e2 := by
  constructor
  · obtain ⟨o, mu, mi, mk, iv, c0, _, _, _, _, _, _, h7⟩ :=
      crossoverLoop_elim rs b lower upper costFn os mus mis mks ivs c j cd h
    rw [h7, he]
  · intro currentValue l2 u2 n c2 e2 he2
    exact fillInitialPopulation_error rs costFn currentValue l2 u2 n c2 e2
      he2

theorem costFailure_local_recovery_scope_witness :
    (crossoverLoop rsHalf false [0] [1] costFail [⟨[5], 3⟩] [⟨[5], 3⟩]
        [⟨[5], 3⟩] [[1]] [[0]] 0).1.get? 0 =
      some ⟨[5], QL_MAX_REAL⟩ ∧
    costFail [5] = Except.error "cost failure" ∧
    ((⟨[5], QL_MAX_REAL⟩ : Candidate).cost = QL_MAX_REAL ∧
     ∀ (currentValue l2 u2 : List ℚ) (n c2 : ℕ) (e2 : String),
       costFail currentValue = Except.error e2 →
       fillInitialPopulation rsHalf costFail currentValue l2 u2 n c2 =
         Except.error e2) := by
  have hloop : crossoverLoop rsHalf false [0] [1] costFail [⟨[5], 3⟩]
      [⟨[5], 3⟩] [⟨[5], 3⟩] [[1]] [[0]] 0 =
      ([⟨[5], QL_MAX_REAL⟩], 0) := by
    norm_num [crossoverLoop, vadd, vmul, costFail]
  refine ⟨by rw [hloop]; rfl, rfl, ?_⟩
  exact costFailure_local_recovery_scope rsHalf false [0] [1] costFail
    [⟨[5], 3⟩] [⟨[5], 3⟩] [⟨[5], 3⟩] [[1]] [[0]] 0 0
    ⟨[5], QL_MAX_REAL⟩ "cost failure" (by rw [hloop]; rfl) rfl

/-- C3 is refuted on a concrete run: with applyBounds enabled, bounds
[0, 1] and the out-of-bounds initial point 5, the single generation's
post-crossover population (recorded in the trace, and returned as the
final best member) holds coordinate 3, above the upper bound 1.  The
reflection upper + u*(mirror - upper) re-uses the out-of-bounds mirror
value 5 and lands outside the interval, and the loop does not re-check
the upper bound afterwards. -/
theorem crossover_bounds_violated :
    cfgC3.applyBounds = true ∧
    minimize cfgC3 ecOne probC3 rsHalf ssNil =
      Except.ok ⟨ECType.MaxIterations, [3], 3, ⟨[3], 3⟩, [[⟨[3], 3⟩]]⟩ ∧
    probC3.upperBound = [1] ∧ ¬ ((3 : ℚ) ≤ 1) :=
  ⟨rfl, h3run, rfl, by norm_num⟩

/-- C3 (amended): when applyBounds is enabled, a coordinate of a member
produced by the crossover member loop lies within [lower, upper] provided
the uniform draws lie in [0, 1] and the member's mirror coordinate lies
within [lower, upper]; without the mirror condition the reflected value
can land outside the interval. -/
theorem crossover_applyBounds_in_bounds (rs : ℕ → ℚ)
    (hr : ∀ n, 0 ≤ rs n ∧ rs n ≤ 1) (lower upper : List ℚ)
    (costFn : List ℚ → Except String ℚ)
    (os mus mis : List Candidate) (mks ivs : List (List ℚ))
    (c j i : ℕ) (cd : Candidate) (x l u : ℚ)
    (h : (crossoverLoop rs true lower upper costFn os mus mis mks ivs
        c).1.get? j = some cd)
    (hx : cd.values.get? i = some x)
    (hl : lower.get? i = some l) (hu : upper.get? i = some u)
    (hmir : ∀ mi, mis.get? j = some mi →
      ∃ m, mi.values.get? i = some m ∧ l ≤ m ∧ m ≤ u) :
    l ≤ x ∧ x ≤ u := by
  obtain ⟨o, mu, mi, mk, iv, c0, h1, h2, h3, h4, h5, h6, h7⟩ :=
    crossoverLoop_elim rs true lower upper costFn os mus mis mks ivs c j
      cd h
  obtain ⟨m, hmget, hlm, hmu⟩ := hmir mi h3
  rw [if_pos rfl] at h6
  rw [h6] at hx
  exact clipValues_get rs hr
    (vadd (vmul o.values iv) (vmul mu.values mk)) lower upper mi.values
    c0 i x l u m hx hl hu hmget hlm hmu

theorem crossover_applyBounds_in_bounds_witness :
    (crossoverLoop rsHalf true [0] [1] costId [⟨[5], 0⟩] [⟨[5], 0⟩]
        [⟨[1 / 2], 0⟩] [[1]] [[0]] 0).1.get? 0 =
      some ⟨[3 / 4], 3 / 4⟩ ∧
    (0 : ℚ) ≤ 3 / 4 ∧ (3 / 4 : ℚ) ≤ 1 := by
  have hloop : crossoverLoop rsHalf true [0] [1] costId [⟨[5], 0⟩]
      [⟨[5], 0⟩] [⟨[1 / 2], 0⟩] [[1]] [[0]] 0 =
      ([⟨[3 / 4], 3 / 4⟩], 1) := by
    norm_num [crossoverLoop, clipValues, nextReal, rsHalf, vadd, vmul,
      costId]
  refine ⟨by rw [hloop]; rfl, ?_⟩
  exact crossover_applyBounds_in_bounds rsHalf
    (fun n => by constructor <;> norm_num [rsHalf]) [0] [1] costId
    [⟨[5], 0⟩] [⟨[5], 0⟩] [⟨[1 / 2], 0⟩] [[1]] [[0]] 0 0 0
    ⟨[3 / 4], 3 / 4⟩ (3 / 4) 0 1 (by rw [hloop]; rfl) rfl rfl rfl
    (fun mi hmi => by
      rw [List.get?_cons_zero] at hmi
      injection hmi with hmi
      exact ⟨1 / 2, by rw [← hmi]; rfl, by norm_num, by norm_num⟩)

/-- C4: getMutationProbabilities maps each stored crossover probability p
to p itself for the Normal crossover type, to p*(1 - 1/d) + 1/d for the
Binomial type, and to (1 - p^d) / (d*(1 - p)) for the Exponential type,
where d is the dimension read off the population front member, for every
stored probability p in [0, 1]. -/
theorem getMutationProbabilities_formula (cfg : Configuration)
    (cgc : List ℚ) (pop : List Candidate) (k : ℕ) (p : ℚ)
    (hk : cgc.get? k = some p) (hp0 : 0 ≤ p) (hp1 : p ≤ 1) :
    (getMutationProbabilities
        { cfg with crossoverType := CrossoverType.Normal } cgc pop).get? k =
      some p ∧
    (getMutationProbabilities
        { cfg with crossoverType := CrossoverType.Binomial } cgc
        pop).get? k =
      some (p * (1 - 1 / ((pop.headD default).values.length : ℚ)) +
        1 / ((pop.headD default).values.length : ℚ)) ∧
    (getMutationProbabilities
        { cfg with crossoverType := CrossoverType.Exponential } cgc
        pop).get? k =
      some ((1 - p ^ (pop.headD default).values.length) /
        (((pop.headD default).values.length : ℚ) * (1 - p))) := by
  refine ⟨?_, ?_, ?_⟩
  · rw [show getMutationProbabilities
        { cfg with crossoverType := CrossoverType.Normal } cgc pop = cgc
      from rfl]
    exact hk
  · rw [show getMutationProbabilities
        { cfg with crossoverType := CrossoverType.Binomial } cgc pop =
        sadd (smul (1 - 1 / ((pop.headD default).values.length : ℚ)) cgc)
          (1 / ((pop.headD default).values.length : ℚ)) from rfl,
      sadd, smul, List.map_map, List.get?_map, hk]
    refine congrArg some ?_
    simp only [Function.comp_apply]
    ring
  · rw [show getMutationProbabilities
        { cfg with crossoverType := CrossoverType.Exponential } cgc pop =
        cgc.map (fun q => (1 - q ^ (pop.headD default).values.length) /
          (((pop.headD default).values.length : ℚ) * (1 - q))) from rfl,
      List.get?_map, hk]
    rfl

theorem getMutationProbabilities_formula_witness :
    ([9 / 10] : List ℚ).get? 0 = some (9 / 10) ∧ (0 : ℚ) ≤ 9 / 10 ∧
    (9 / 10 : ℚ) ≤ 1 ∧
    (getMutationProbabilities
        { cfgC9 with crossoverType := CrossoverType.Binomial } [9 / 10]
        [⟨[1, 2], 0⟩]).get? 0 = some (19 / 20) := by
  refine ⟨rfl, by norm_num, by norm_num, ?_⟩
  have h := (getMutationProbabilities_formula cfgC9 [9 / 10] [⟨[1, 2], 0⟩]
    0 (9 / 10) rfl (by norm_num) (by norm_num)).2.1
  rw [h]
  norm_num

/-- C8: the member brought to the front by the partial sort has minimal
cost within its population; across the main loop the best-ever member's
cost never increases and strictly decreases whenever the member is
replaced; and the result minimize hands back carries exactly the best-ever
member's values and cost. -/
theorem deMinimize_best_invariants (rs : ℕ → ℚ) (ss : ℕ → List ℕ)
    (cfg : Configuration) (ec : EndCriteria) (lower upper : List ℚ)
    (costFn : List ℚ → Except String ℚ) (fuel : ℕ) (st : LoopState)
    (trace : List (List Candidate)) (p : Problem) (res : MinimizeResult)
    (hres : minimize cfg ec p rs ss = Except.ok res) :
    (∀ (pop : List Candidate) (cd : Candidate), cd ∈ pop →
      ((frontMin pop).headD default).cost ≤ cd.cost) ∧
    (deLoop rs ss cfg ec lower upper costFn fuel st
        trace).2.1.bestMemberEver.cost ≤ st.bestMemberEver.cost ∧
    ((deLoop rs ss cfg ec lower upper costFn fuel st
        trace).2.1.bestMemberEver ≠ st.bestMemberEver →
      (deLoop rs ss cfg ec lower upper costFn fuel st
        trace).2.1.bestMemberEver.cost < st.bestMemberEver.cost) ∧
    res.currentValue = res.bestMemberEver.values ∧
    res.functionValue = res.bestMemberEver.cost := by
  obtain ⟨h1, h2⟩ := deLoop_best_mono rs ss cfg ec lower upper costFn fuel
    st trace
  obtain ⟨h3, h4⟩ := minimize_writeback cfg ec p rs ss res hres
  exact ⟨frontMin_head_le, h1, h2, h3, h4⟩

theorem deMinimize_best_invariants_witness :
    minimize cfgC3 ecOne probC3 rsHalf ssNil = Except.ok
      ⟨ECType.MaxIterations, [3], 3, ⟨[3], 3⟩, [[⟨[3], 3⟩]]⟩ ∧
    ((∀ (pop : List Candidate) (cd : Candidate), cd ∈ pop →
        ((frontMin pop).headD default).cost ≤ cd.cost) ∧
      (deLoop rsHalf ssNil cfgC3 ecOne [0] [1] costId 0 stW
          []).2.1.bestMemberEver.cost ≤ stW.bestMemberEver.cost ∧
      ((deLoop rsHalf ssNil cfgC3 ecOne [0] [1] costId 0 stW
          []).2.1.bestMemberEver ≠ stW.bestMemberEver →
        (deLoop rsHalf ssNil cfgC3 ecOne [0] [1] costId 0 stW
          []).2.1.bestMemberEver.cost < stW.bestMemberEver.cost) ∧
      (⟨ECType.MaxIterations, [3], 3, ⟨[3], 3⟩, [[⟨[3], 3⟩]]⟩ :
          MinimizeResult).currentValue =
        (⟨ECType.MaxIterations, [3], 3, ⟨[3], 3⟩, [[⟨[3], 3⟩]]⟩ :
          MinimizeResult).bestMemberEver.values ∧
      (⟨ECType.MaxIterations, [3], 3, ⟨[3], 3⟩, [[⟨[3], 3⟩]]⟩ :
          MinimizeResult).functionValue =
        (⟨ECType.MaxIterations, [3], 3, ⟨[3], 3⟩, [[⟨[3], 3⟩]]⟩ :
          MinimizeResult).bestMemberEver.cost) :=
  ⟨h3run, deMinimize_best_invariants rsHalf ssNil cfgC3 ecOne [0] [1]
    costId 0 stW [] probC3
    ⟨ECType.MaxIterations, [3], 3, ⟨[3], 3⟩, [[⟨[3], 3⟩]]⟩ h3run⟩

/-- C9 is refuted in the model: two minimize runs with the same
configuration (including the seed field), the same termination criteria,
the same problem and cost function, and the same seeded uniform stream
disagree when the global std::random_shuffle source differs, because
rotateArray shuffles through state that is not derived from
configuration.seed. -/
theorem minimize_shuffle_nondeterminism :
    minimize cfgC9 ecOne probC9 rsHalf ssId2 ≠
      minimize cfgC9 ecOne probC9 rsHalf ssSwap2 := by
  rw [h9runA, h9runB]
  intro h
  injection h with h1
  rw [MinimizeResult.mk.injEq] at h1
  exact absurd h1.2.2.1 (by norm_num)

/-- C9 (amended): minimize is deterministic in all of its inputs: two
runs with the same configuration, criteria and problem agree whenever the
seeded uniform stream and the global shuffle source both agree pointwise;
the configuration seed alone does not fix the shuffle source. -/
theorem minimize_deterministic (cfg : Configuration) (ec : EndCriteria)
    (p : Problem) (rs1 rs2 : ℕ → ℚ) (ss1 ss2 : ℕ → List ℕ)
    (hrs : ∀ n, rs1 n = rs2 n) (hss : ∀ n, ss1 n = ss2 n) :
    minimize cfg ec p rs1 ss1 = minimize cfg ec p rs2 ss2 := by
  have h1 : rs1 = rs2 := funext hrs
  have h2 : ss1 = ss2 := funext hss
  rw [h1, h2]

theorem minimize_deterministic_witness :
    (∀ n, rsHalf n = rsHalf n) ∧ (∀ n, ssId2 n = ssId2 n) ∧
    minimize cfgC9 ecOne probC9 rsHalf ssId2 =
      minimize cfgC9 ecOne probC9 rsHalf ssId2 :=
  ⟨fun _ => rfl, fun _ => rfl,
    minimize_deterministic cfgC9 ecOne probC9 rsHalf rsHalf ssId2 ssId2
      (fun _ => rfl) (fun _ => rfl)⟩


end DE

end Quantuccia
